import Mathlib

/-!
Verification development for the telemetry query & join engine of the
truck-emission dashboard (`dash-app/app.py`).

The pandas/Flux code is shallowly embedded as follows:

* a pandas `DataFrame` becomes a `Frame`: a list of column names plus a
  list of rows, each row an association list from column name to scalar
  `Val` (`Val.null` models `NaN`/`None`);
* the store's raw response (`query_data_frame` output) becomes
  `TablesResult` (a single frame or a list of frames), optionally wrapped
  in `Option` where the code checks for `None`;
* floating-point scalars are modelled by `ℚ` (the code performs only
  selection, comparison and one arithmetic mean, all exact);
* pandas `sort_values` is modelled by insertion sort (the code never
  relies on a particular tie-break; the specification leaves ties
  unspecified);
* fallible pandas operations (`KeyError` on a missing column) return
  `Except String Frame`.
-/

/-- A scalar cell value: a string, a rational number, or null (`NaN`/`None`). -/
inductive Val where
  | str : String → Val
  | num : ℚ → Val
  | null : Val
deriving DecidableEq, Repr

/-- A data-frame row: an association list from column name to value. -/
abbrev Row := List (String × Val)

/-- A pandas `DataFrame`: a column list plus rows.  Well-formed frames give
every row exactly the columns of `cols`; the model does not enforce this,
mirroring pandas' dynamic shape. -/
structure Frame where
  cols : List String
  rows : List Row
deriving DecidableEq, Repr

/-- `pd.DataFrame()`: the empty frame. -/
def Frame.empty : Frame := ⟨[], []⟩

/-- `df.empty`: true when either axis has length zero. -/
def Frame.isEmpty (f : Frame) : Bool := f.rows.isEmpty || f.cols.isEmpty

/-- Look a column up in a row (first occurrence); `none` when the row has no
such key. -/
def rowGet (r : Row) (c : String) : Option Val :=
  match r with
  | [] => none
  | (k, v) :: t => if k = c then some v else rowGet t c

/-- `Series.notna` on one cell: the cell exists and is not null. -/
def notna (v : Option Val) : Bool :=
  match v with
  | some Val.null => false
  | some _ => true
  | none => false

/-- `drop_duplicates(subset, keep="last")` / `groupby(...).tail(1)` core:
keep, for each key, only the last element carrying that key, preserving the
order of the kept elements. -/
def dropDupLast {α β : Type} [DecidableEq β] (key : α → β) : List α → List α
  | [] => []
  | x :: xs => (if xs.any (fun y => key y = key x) then [] else [x]) ++ dropDupLast key xs

/-- Helper for `dedupFirst`: drop elements already seen. -/
def dedupFirstAux {α : Type} [DecidableEq α] (seen : List α) : List α → List α
  | [] => []
  | x :: xs => if x ∈ seen then dedupFirstAux seen xs else x :: dedupFirstAux (x :: seen) xs

/-- `Series.unique()`: deduplicate keeping the first occurrence of each
element, preserving order. -/
def dedupFirst {α : Type} [DecidableEq α] : List α → List α := dedupFirstAux []

/-- Lexicographic order on character lists by code point — the comparison
Python's `sorted` and pandas' `sort_values` apply to strings. -/
def listLexLeB : List Char → List Char → Bool
  | [], _ => true
  | _ :: _, [] => false
  | a :: as, b :: bs => if a.toNat = b.toNat then listLexLeB as bs else decide (a.toNat < b.toNat)

/-- Lexicographic string order by code point. -/
def strLeB (a b : String) : Bool := listLexLeB a.data b.data

/-- A total order on scalar values, used to model Python/pandas sorting
(`sorted`, `pivot_table`'s sorted index and columns).  On all-string lists —
the only case reachable for entity keys and metric names in this system — it
is lexicographic string order; Python would raise on heterogeneous lists,
which the theorems below never exercise. -/
def valLeB : Val → Val → Bool
  | Val.null, _ => true
  | _, Val.null => false
  | Val.num a, Val.num b => decide (a ≤ b)
  | Val.num _, Val.str _ => true
  | Val.str _, Val.num _ => false
  | Val.str a, Val.str b => strLeB a b

/-- Propositional form of `valLeB`. -/
def valLe (a b : Val) : Prop := valLeB a b = true

instance : DecidableRel valLe := fun a b => inferInstanceAs (Decidable (valLeB a b = true))

/-- Python truthiness of a scalar, as used by `[t for t in ... if t]`:
a string is truthy iff non-empty, a number iff non-zero.  (The code applies
this only after `dropna`, so the null case is unreachable there.) -/
def valTruthy : Val → Bool
  | Val.str s => decide (s ≠ "")
  | Val.num q => decide (q ≠ 0)
  | Val.null => false

/-- Whether a scalar is a string. -/
def valIsStr : Val → Bool
  | Val.str _ => true
  | _ => false

/-- The column label pandas would give a pivot column keyed by this value
(string values label themselves; the theorems only exercise string metric
names, as produced by the store's `_field` column). -/
def valLabel : Val → String
  | Val.str s => s
  | Val.num q => toString q
  | Val.null => ""

/-- The store's raw tabular result: `query_data_frame` returns either a
single `DataFrame` or a list of `DataFrame`s. -/
inductive TablesResult where
  | df : Frame → TablesResult
  | frames : List Frame → TablesResult
deriving DecidableEq, Repr

/-- Union of column lists preserving first-appearance order (`pd.concat`'s
column union). -/
def colUnion (a b : List String) : List String :=
  a ++ b.filter (fun c => ¬ (c ∈ a))

/-- `pd.concat(frames)`: union the columns, append the rows in order, fill
cells missing from a row's original frame with null (`NaN`). -/
def concatFrames (fs : List Frame) : Frame :=
  let cols := fs.foldl (fun acc f => colUnion acc f.cols) []
  ⟨cols, (fs.map Frame.rows).flatten.map (fun r => cols.map (fun c => (c, (rowGet r c).getD Val.null)))⟩

/-- Lines 104-112 of `app.py` (and their analogues): collapse the raw store
response to one frame.  `none` (the `tables is None` check) and an empty
list give the empty frame; a single `DataFrame` is used directly; a
non-empty list is concatenated. -/
def normalizeRes (res : Option TablesResult) : Frame :=
  match res with
  | none => Frame.empty
  | some (TablesResult.df f) => f
  | some (TablesResult.frames []) => Frame.empty
  | some (TablesResult.frames fs) => concatFrames fs

/-- `df[df[c].notna()]` (with the column known to exist): keep rows whose
value at `c` is non-null. -/
def filterNotna (c : String) (f : Frame) : Frame :=
  ⟨f.cols, f.rows.filter (fun r => notna (rowGet r c))⟩

/-- One column rename: first matching rule wins, otherwise unchanged
(pandas `rename` ignores absent keys). -/
def renameOne (m : List (String × String)) (c : String) : String :=
  match m with
  | [] => c
  | (a, b) :: t => if a = c then b else renameOne t c

/-- `df.rename(columns=dict(m))`. -/
def renameFrame (m : List (String × String)) (f : Frame) : Frame :=
  ⟨f.cols.map (renameOne m), f.rows.map (fun r => r.map (fun kv => (renameOne m kv.1, kv.2)))⟩

/-- The time-series row type after normalization: `query_timeseries`'s frame
carries exactly the columns `time`, `value`, `truck_id`, `metric`
(`keep(columns: ["_time","_value","truck_id","_field"])` plus the rename at
line 64 of `app.py`); timestamps are modelled by `ℤ`. -/
structure TsRow where
  time : Int
  truck_id : String
  metric : String
  value : ℚ
deriving DecidableEq, Repr

/-- Row order for `sort_values("time")`. -/
def tsTimeLe (a b : TsRow) : Prop := a.time ≤ b.time

instance : DecidableRel tsTimeLe := fun a b => inferInstanceAs (Decidable (a.time ≤ b.time))

/-- Row order for `sort_values(["truck_id","metric"], ascending=[True,True])`:
lexicographic (by code point) on the (entity, metric) pair. -/
def tsKeyLeB (a b : TsRow) : Bool :=
  if a.truck_id = b.truck_id then strLeB a.metric b.metric else strLeB a.truck_id b.truck_id

/-- Propositional form of `tsKeyLeB`. -/
def tsKeyLe (a b : TsRow) : Prop := tsKeyLeB a b = true

instance : DecidableRel tsKeyLe := fun a b => inferInstanceAs (Decidable (tsKeyLeB a b = true))

/-- Lines 445-448 of `app.py` (`refresh_dashboard`), the latest-readings
view (specification name `latest_per_entity_metric`):

    ts.sort_values("time").groupby(["truck_id","metric"]).tail(1)
      .sort_values(["truck_id","metric"], ascending=[True,True])

`groupby(...).tail(1)` keeps, in frame order, the last row of each
(entity, metric) group, which is `dropDupLast` on the (entity, metric) key. -/
def latest_per_entity_metric (ts : List TsRow) : List TsRow :=
  List.insertionSort tsKeyLe
    (dropDupLast (fun r => (r.truck_id, r.metric)) (List.insertionSort tsTimeLe ts))

/-- Lines 392-402 of `app.py` (specification name `mean_per_metric`): the
rows matching the metric, and their arithmetic mean when any exist; `none`
models the untouched `"--"` marker (a string, distinguishable from any
formatted number; `ℚ` has no NaN, and the code never produces one here
since `mean` of a non-empty column of real readings is real). -/
def mean_per_metric (latest_rows : List TsRow) (metric : String) : Option ℚ :=
  let metric_data := latest_rows.filter (fun r => r.metric = metric)
  if metric_data.isEmpty then none
  else some ((metric_data.map TsRow.value).sum / (metric_data.length : ℚ))

/-- Boolean list-prefix test (self-contained, over characters). -/
def listPrefixB : List Char → List Char → Bool
  | [], _ => true
  | _ :: _, [] => false
  | a :: as, b :: bs => a = b && listPrefixB as bs

/-- Boolean substring test on character lists: the needle occurs as a
contiguous run somewhere in the haystack. -/
def containsSub (needle : List Char) : List Char → Bool
  | [] => listPrefixB needle []
  | h :: t => listPrefixB needle (h :: t) || containsSub needle t

/-- `pat` occurs as a contiguous substring of `s`. -/
def containsStr (s pat : String) : Bool := containsSub pat.data s.data

/-- The Flux field filter `r._field =~ /(co2|hc|co)/` (lines 51 and 95 of
`app.py`): `=~` is an unanchored regular-expression match, so the
alternation accepts a field name exactly when `co2`, `hc` or `co` occurs in
it as a substring. -/
def fieldRegexAccepts (s : String) : Bool :=
  containsStr s "co2" || containsStr s "hc" || containsStr s "co"

/-- The configured dataset name (`INFLUX_BUCKET`, default `"telemetry"`;
the environment override is configuration and does not affect any claim). -/
def INFLUX_BUCKET : String := "telemetry"

/-- The dashboard's time-window values (`time-window` dropdown plus the
`DEFAULT_LOOKBACK`): a fixed enumerated set of lookback durations. -/
inductive TimeWindow where
  | w1h | w6h | w24h | w7d
deriving DecidableEq, Repr

/-- The Flux range literal each window denotes. -/
def TimeWindow.render : TimeWindow → String
  | TimeWindow.w1h => "-1h"
  | TimeWindow.w6h => "-6h"
  | TimeWindow.w24h => "-24h"
  | TimeWindow.w7d => "-7d"

/-- `'"' + t + '"'`: one entity identifier quoted for the Flux set literal. -/
def quoteStr (t : String) : String := "\"" ++ t ++ "\""

/-- `",".join(xs)`. -/
def joinComma : List String → String
  | [] => ""
  | [x] => x
  | x :: y :: xs => x ++ "," ++ joinComma (y :: xs)

/-- The fixed head of the entity inclusion filter emitted at line 45 of
`app.py`. -/
def truckFilterHead : String := "|> filter(fn: (r) => contains(value: r.truck_id, set: ["

/-- Lines 42-45 of `app.py`: the entity filter fragment.  Python's
`if trucks:` is truthiness — `None` and the empty list both leave the
fragment empty. -/
def truck_filter (trucks : Option (List String)) : String :=
  match trucks with
  | none => ""
  | some ts =>
    if ts.isEmpty then ""
    else truckFilterHead ++ joinComma (ts.map quoteStr) ++ "]))"

/-- Lines 47-55 of `app.py`: the time-series Flux query text. -/
def query_timeseries_flux (lookback : TimeWindow) (trucks : Option (List String)) : String :=
  "\nfrom(bucket: \"" ++ INFLUX_BUCKET ++ "\")\n  |> range(start: " ++ lookback.render ++
    ")\n  |> filter(fn: (r) => r._measurement == \"truck_metrics\")\n  |> filter(fn: (r) => r._field =~ /(co2|hc|co)/)\n  " ++
    truck_filter trucks ++
    "\n  |> keep(columns: [\"_time\",\"_value\",\"truck_id\",\"_field\"])\n  |> sort(columns: [\"_time\"])\n    "

/-- Lines 60-65 of `app.py`: the post-concatenation body of
`query_timeseries`.  Note it drops rows with a null `_measurement` (when
that column survived), not rows with a null entity key, and then renames the
store's column names to the canonical ones. -/
def query_timeseries_body (df : Frame) : Frame :=
  if df.isEmpty then df
  else
    let df := if "_measurement" ∈ df.cols then filterNotna "_measurement" df else df
    renameFrame [("_time", "time"), ("_value", "value"), ("_field", "metric")] df

/-- Lines 56-65 of `app.py`: `query_timeseries` after the store call (the
function's data path, taking the store's response as input). -/
def query_timeseries_post (tables : TablesResult) : Frame :=
  match tables with
  | TablesResult.frames [] => Frame.empty
  | TablesResult.df f => query_timeseries_body f
  | TablesResult.frames fs => query_timeseries_body (concatFrames fs)

/-- Lines 165-168 of `app.py`: the extraction step of `list_trucks` —
guard on emptiness and on the presence of the entity column, then
`sorted([t for t in df["truck_id"].dropna().unique().tolist() if t])`. -/
def list_trucks_body (df : Frame) : List Val :=
  if df.isEmpty = true ∨ "truck_id" ∉ df.cols then []
  else
    List.insertionSort valLe
      ((dedupFirst ((df.rows.map (fun r => (rowGet r "truck_id").getD Val.null)).filter
          (fun v => v ≠ Val.null))).filter valTruthy)

/-- Lines 161-168 of `app.py`: `list_trucks` after the store call
(specification name `list_entities`). -/
def list_trucks_post (tables : TablesResult) : List Val :=
  match tables with
  | TablesResult.frames [] => []
  | TablesResult.df f => list_trucks_body f
  | TablesResult.frames fs => list_trucks_body (concatFrames fs)

/-- Lines 124-130 of `app.py`: the rename map for the metrics frame, built
only from the columns actually present. -/
def metricsRenameMap (cols : List String) : List (String × String) :=
  (if "_time" ∈ cols then [("_time", "time")] else []) ++
    (if "_field" ∈ cols then [("_field", "metric")] else []) ++
      (if "_value" ∈ cols then [("_value", "metric_value")] else [])

/-- Lines 120-121 of `app.py`: restrict the coords frame to rows with a
non-null entity key, then `drop_duplicates(subset=["truck_id"],
keep="last")`. -/
def cleanCoords (f : Frame) : Frame :=
  ⟨f.cols, dropDupLast (fun r => rowGet r "truck_id")
    ((f.rows.filter (fun r => notna (rowGet r "truck_id"))))⟩

/-- `drop_duplicates(subset=subset, keep="last")`; pandas raises `KeyError`
when a subset column is absent. -/
def dropDuplicatesSubset (subset : List String) (f : Frame) : Except String Frame :=
  if subset.all (fun c => c ∈ f.cols) then
    Except.ok ⟨f.cols, dropDupLast (fun r => subset.map (rowGet r)) f.rows⟩
  else Except.error "KeyError: drop_duplicates subset"

/-- Lines 135-140 of `app.py`, the successful case of
`pivot_table(index="truck_id", columns="metric", values="metric_value",
aggfunc="last").reset_index()`: one row per distinct non-null entity key
(sorted), one column per distinct non-null metric (sorted), each cell the
last `metric_value` of that (entity, metric) group, null (`NaN`) when the
group is empty.  (The pivot's `dropna` pruning of all-null columns is not
modelled; no reachable input produces one.) -/
def pivotBody (f : Frame) : Frame :=
  let trucks := List.insertionSort valLe
    (dedupFirst ((f.rows.map (fun r => (rowGet r "truck_id").getD Val.null)).filter
      (fun v => v ≠ Val.null)))
  let labels := List.insertionSort valLe
    (dedupFirst ((f.rows.map (fun r => (rowGet r "metric").getD Val.null)).filter
      (fun v => v ≠ Val.null)))
  let cell := fun (t m : Val) =>
    ((((f.rows.filter (fun r =>
          (rowGet r "truck_id").getD Val.null = t ∧ (rowGet r "metric").getD Val.null = m)).map
        (fun r => (rowGet r "metric_value").getD Val.null)).getLast?).getD Val.null)
  ⟨"truck_id" :: labels.map valLabel,
    trucks.map (fun t => ("truck_id", t) :: labels.map (fun m => (valLabel m, cell t m)))⟩

/-- `pivot_table` raises `KeyError` when the index, columns or values key is
absent from the frame. -/
def pivot_table (f : Frame) : Except String Frame :=
  if "truck_id" ∈ f.cols ∧ "metric" ∈ f.cols ∧ "metric_value" ∈ f.cols then
    Except.ok (pivotBody f)
  else Except.error "KeyError: pivot_table"

/-- Line 148 of `app.py`: `coords_df.merge(metrics_df, on="truck_id",
how="left")`.  For each left row in order: the matching right rows (same
key value), each merged as left columns then right columns minus the key;
with no match the right columns are null-filled.  pandas raises `KeyError`
when either side lacks the key column.  (Collision suffixing of overlapping
non-key columns is not modelled; the frames merged here have disjoint
non-key columns whenever the metric names are the pollutant fields.) -/
def mergeLeftOn (key : String) (l r : Frame) : Except String Frame :=
  if key ∈ l.cols ∧ key ∈ r.cols then
    let rcols := r.cols.filter (fun c => c ≠ key)
    Except.ok ⟨l.cols ++ rcols,
      (l.rows.map (fun lr =>
        let ms := r.rows.filter (fun rr => rowGet rr key = rowGet lr key)
        if ms.isEmpty then [lr ++ rcols.map (fun c => (c, Val.null))]
        else ms.map (fun rr => lr ++ rr.filter (fun kv => kv.1 ≠ key)))).flatten⟩
  else Except.error "KeyError: merge"

/-- Lines 101-148 of `app.py`: `query_latest_coords` after the two store
calls, taking the raw coords and metrics responses.  The Python reassigns
`coords_df`/`metrics_df` in place; the model threads the same values, and
returns `Except.error` exactly where pandas raises (`metrics_df["truck_id"]`
at line 133 on a frame without that column, `drop_duplicates` at line 134,
`pivot_table` at line 135, `merge` at line 148). -/
def query_latest_coords (coordsRes metricsRes : Option TablesResult) : Except String Frame :=
  let coords_df := normalizeRes coordsRes
  let metrics_df := normalizeRes metricsRes
  if coords_df.isEmpty && metrics_df.isEmpty then Except.ok Frame.empty
  else
    let coords_df :=
      if ¬ coords_df.isEmpty = true then
        if "truck_id" ∈ coords_df.cols then cleanCoords coords_df else coords_df
      else coords_df
    let metricsStep : Except String Frame :=
      if ¬ metrics_df.isEmpty = true then
        let rename_map := metricsRenameMap metrics_df.cols
        let m1 := if rename_map.isEmpty then metrics_df else renameFrame rename_map metrics_df
        if "truck_id" ∈ m1.cols then
          match dropDuplicatesSubset ["truck_id", "metric"] (filterNotna "truck_id" m1) with
          | Except.error e => Except.error e
          | Except.ok m2 => pivot_table m2
        else Except.error "KeyError: truck_id"
      else Except.ok metrics_df
    match metricsStep with
    | Except.error e => Except.error e
    | Except.ok metrics_df =>
      if coords_df.isEmpty then
        Except.ok (if ¬ metrics_df.isEmpty = true then metrics_df else Frame.empty)
      else if metrics_df.isEmpty then Except.ok coords_df
      else mergeLeftOn "truck_id" coords_df metrics_df

/-- A position entry as the coords Flux query delivers it (line 70-88 of
`app.py`): `keep(columns: ["truck_id","lat","lon","time_lat","time_lon"])`
after the lat/lon join; the entity key may be null. -/
structure CEntry where
  truck_id : Option String
  lat : ℚ
  lon : ℚ
  time_lat : Int
  time_lon : Int
deriving DecidableEq, Repr

/-- A metrics entry as the metrics Flux query delivers it (lines 91-99 of
`app.py`): `keep(columns: ["_time","truck_id","_field","_value"])`. -/
structure MEntry where
  time : Int
  truck_id : Option String
  field : String
  value : ℚ
deriving DecidableEq, Repr

/-- Embed an optional string as a cell. -/
def optStrVal : Option String → Val
  | none => Val.null
  | some s => Val.str s

/-- One row of the coords response frame. -/
def mkCoordRow (e : CEntry) : Row :=
  [("truck_id", optStrVal e.truck_id), ("lat", Val.num e.lat), ("lon", Val.num e.lon),
    ("time_lat", Val.num (e.time_lat : ℚ)), ("time_lon", Val.num (e.time_lon : ℚ))]

/-- The coords response frame for a list of position entries. -/
def mkCoordsFrame (l : List CEntry) : Frame :=
  ⟨["truck_id", "lat", "lon", "time_lat", "time_lon"], l.map mkCoordRow⟩

/-- One row of the metrics response frame (store column names, pre-rename). -/
def mkMetricRow (e : MEntry) : Row :=
  [("_time", Val.num (e.time : ℚ)), ("truck_id", optStrVal e.truck_id),
    ("_field", Val.str e.field), ("_value", Val.num e.value)]

/-- The metrics response frame for a list of metric entries. -/
def mkMetricsFrame (l : List MEntry) : Frame :=
  ⟨["_time", "truck_id", "_field", "_value"], l.map mkMetricRow⟩

/-- One row of the metrics frame after the rename at lines 124-132. -/
def mkMetricRowRenamed (e : MEntry) : Row :=
  [("time", Val.num (e.time : ℚ)), ("truck_id", optStrVal e.truck_id),
    ("metric", Val.str e.field), ("metric_value", Val.num e.value)]

/-- The entity-listing response frame: `keep(columns: ["truck_id"])` with
`distinct` renamed back to `truck_id` (lines 152-160 of `app.py`), so a
single `truck_id` column whose cells are the observed identifiers. -/
def mkTruckFrame (l : List Val) : Frame :=
  ⟨["truck_id"], l.map (fun v => [("truck_id", v)])⟩

/-! ### Helper lemmas: substring containment -/

theorem listPrefixB_refl (n : List Char) : listPrefixB n n = true := by
  induction n with
  | nil => rfl
  | cons a as ih => simp [listPrefixB, ih]

theorem listPrefixB_append_right (n b c : List Char) (h : listPrefixB n b = true) :
    listPrefixB n (b ++ c) = true := by
  induction n generalizing b with
  | nil => rfl
  | cons a as ih =>
    cases b with
    | nil => cases h
    | cons x xs =>
      simp only [listPrefixB, Bool.and_eq_true, decide_eq_true_eq] at h
      simp [listPrefixB, h.1, ih xs h.2]

theorem listPrefixB_trans (p n h : List Char) (h₁ : listPrefixB p n = true)
    (h₂ : listPrefixB n h = true) : listPrefixB p h = true := by
  induction p generalizing n h with
  | nil => rfl
  | cons a as ih =>
    cases n with
    | nil => cases h₁
    | cons x xs =>
      cases h with
      | nil => cases h₂
      | cons y ys =>
        simp only [listPrefixB, Bool.and_eq_true, decide_eq_true_eq] at h₁ h₂ ⊢
        exact ⟨h₁.1.trans h₂.1, ih xs ys h₁.2 h₂.2⟩

theorem containsSub_of_prefixB {n h : List Char} (hp : listPrefixB n h = true) :
    containsSub n h = true := by
  cases h with
  | nil => exact hp
  | cons x xs => simp [containsSub, hp]

theorem containsSub_append_left (a : List Char) {n t : List Char}
    (h : containsSub n t = true) : containsSub n (a ++ t) = true := by
  induction a with
  | nil => exact h
  | cons x xs ih => simp [containsSub, ih]

theorem containsSub_mono {p n h : List Char} (hpn : listPrefixB p n = true)
    (hc : containsSub n h = true) : containsSub p h = true := by
  induction h with
  | nil => exact containsSub_of_prefixB (listPrefixB_trans p n [] hpn hc)
  | cons x xs ih =>
    simp only [containsSub, Bool.or_eq_true] at hc ⊢
    rcases hc with hc | hc
    · exact Or.inl (listPrefixB_trans p n (x :: xs) hpn hc)
    · exact Or.inr (ih hc)

theorem containsStr_of_middle (a b c n : String) (hpre : listPrefixB n.data b.data = true) :
    containsStr (a ++ b ++ c) n = true := by
  unfold containsStr
  rw [String.data_append, String.data_append, List.append_assoc]
  exact containsSub_append_left a.data
    (containsSub_of_prefixB (listPrefixB_append_right n.data b.data c.data hpre))

/-! ### C7: field-restriction of the emitted filter -/

/-- C7 counterexample: the claim says the emitted field filter accepts a
store field name if and only if it is one of exactly `co2`, `hc`, `co`.
The filter is the unanchored regex `/(co2|hc|co)/`, which also accepts
`"cobalt"` — a name outside the three-element set — because it contains
`co` as a substring. -/
theorem C7_field_filter_counterexample :
    fieldRegexAccepts "cobalt" = true ∧
      ("cobalt" ∈ (["co2", "hc", "co"] : List String)) = False := by
  constructor
  · decide
  · simp

/-- C7 amended: the field filter emitted by the Query Builder
(`r._field =~ /(co2|hc|co)/`) accepts a field name iff the name contains
`co2`, `hc` or `co` as a substring — equivalently, iff it contains `hc` or
`co`; restricted to the store's actual field universe
`{co2, hc, co, lat, lon}` it accepts exactly `{co2, hc, co}`, but arbitrary
names containing those substrings are accepted as well. -/
theorem C7_field_filter_amended :
    (∀ s : String, fieldRegexAccepts s = (containsStr s "hc" || containsStr s "co")) ∧
      (∀ s ∈ (["co2", "hc", "co", "lat", "lon"] : List String),
        (fieldRegexAccepts s = true ↔ s ∈ (["co2", "hc", "co"] : List String))) := by
  constructor
  · intro s
    unfold fieldRegexAccepts
    cases h2 : containsStr s "co2" with
    | false => simp
    | true =>
      have hco : containsStr s "co" = true :=
        containsSub_mono (p := "co".data) (n := "co2".data) (by decide) h2
      simp [hco]
  · intro s hs
    fin_cases hs <;> decide

/-- Witness for C7 amended, at the concrete field name `co2`. -/
theorem C7_field_filter_amended_witness :
    fieldRegexAccepts "co2" = (containsStr "co2" "hc" || containsStr "co2" "co") ∧
      (fieldRegexAccepts "co2" = true ↔ "co2" ∈ (["co2", "hc", "co"] : List String)) :=
  ⟨C7_field_filter_amended.1 "co2", C7_field_filter_amended.2 "co2" (by decide)⟩

/-! ### C6: conditionality of the entity filter -/

set_option maxRecDepth 40000 in
/-- C6: the time-series query text contains the entity inclusion filter iff
the entity argument is non-null and non-empty; the null and empty cases
produce identical query text; and with a non-empty entity list the full
inclusion filter over exactly those (quoted) entities occurs in the text. -/
theorem C6_entity_filter_conditionality (w : TimeWindow) (t : Option (List String)) :
    (containsStr (query_timeseries_flux w t) truckFilterHead = true ↔
      (t ≠ none ∧ t ≠ some [])) ∧
    query_timeseries_flux w none = query_timeseries_flux w (some []) ∧
    (∀ ts, t = some ts → ts ≠ [] →
      containsStr (query_timeseries_flux w t)
        (truckFilterHead ++ joinComma (ts.map quoteStr) ++ "]))") = true) := by
  refine ⟨?_, ?_, ?_⟩
  · match t with
    | none => cases w <;> decide
    | some [] => cases w <;> decide
    | some (h :: hs) =>
      constructor
      · intro _
        exact ⟨by simp, by simp⟩
      · intro _
        unfold query_timeseries_flux
        apply containsStr_of_middle
        show listPrefixB truckFilterHead.data (truck_filter (some (h :: hs))).data = true
        have : truck_filter (some (h :: hs)) =
            truckFilterHead ++ (joinComma ((h :: hs).map quoteStr) ++ "]))") := by
          simp [truck_filter, String.append_assoc]
        rw [this, String.data_append]
        exact listPrefixB_append_right _ _ _ (listPrefixB_refl _)
  · rfl
  · intro ts hts hne
    subst hts
    match ts, hne with
    | h :: hs, _ =>
      unfold query_timeseries_flux
      apply containsStr_of_middle
      show listPrefixB (truckFilterHead ++ joinComma ((h :: hs).map quoteStr) ++ "]))").data
        (truck_filter (some (h :: hs))).data = true
      have : truck_filter (some (h :: hs)) =
          truckFilterHead ++ joinComma ((h :: hs).map quoteStr) ++ "]))" := by
        simp [truck_filter]
      rw [this]
      exact listPrefixB_refl _

/-- Witness for C6, at the 24-hour window with entity list `["T1"]` and with
the two no-filter arguments. -/
theorem C6_entity_filter_conditionality_witness :
    containsStr (query_timeseries_flux TimeWindow.w24h (some ["T1"]))
        (truckFilterHead ++ joinComma (["T1"].map quoteStr) ++ "]))") = true ∧
      query_timeseries_flux TimeWindow.w24h none =
        query_timeseries_flux TimeWindow.w24h (some []) :=
  ⟨(C6_entity_filter_conditionality TimeWindow.w24h (some ["T1"])).2.2 ["T1"] rfl (by decide),
    (C6_entity_filter_conditionality TimeWindow.w24h none).2.1⟩

/-! ### C4: mean per metric with no data -/

/-- C4: `mean_per_metric` returns the arithmetic mean of the `value` column
over the rows matching the metric, and the absent marker (`none`, the
untouched `"--"`; distinguishable from a computed `0.0`, i.e. `some 0`)
when no rows match. -/
theorem C4_mean_with_no_data (rows : List TsRow) (m : String) :
    ((rows.filter (fun r => r.metric = m)).isEmpty = true →
      mean_per_metric rows m = none ∧ mean_per_metric rows m ≠ some 0) ∧
    ((rows.filter (fun r => r.metric = m)).isEmpty = false →
      mean_per_metric rows m =
        some (((rows.filter (fun r => r.metric = m)).map TsRow.value).sum /
          ((rows.filter (fun r => r.metric = m)).length : ℚ))) := by
  constructor
  · intro h
    simp [mean_per_metric, h]
  · intro h
    simp [mean_per_metric, h]

/-- Witness for C4: one matching and one non-matching metric on concrete
rows. -/
theorem C4_mean_with_no_data_witness :
    mean_per_metric [⟨1, "T1", "co2", 10⟩, ⟨1, "T2", "co2", 20⟩] "hc" = none ∧
      mean_per_metric [⟨1, "T1", "co2", 10⟩, ⟨1, "T2", "co2", 20⟩] "co2" = some 15 := by
  constructor
  · exact ((C4_mean_with_no_data [⟨1, "T1", "co2", 10⟩, ⟨1, "T2", "co2", 20⟩] "hc").1 (by decide)).1
  · have := (C4_mean_with_no_data [⟨1, "T1", "co2", 10⟩, ⟨1, "T2", "co2", 20⟩] "co2").2 (by decide)
    rw [this]
    norm_num

/-! ### Helper lemmas: the code-point lexicographic order -/

theorem listLexLeB_total : ∀ a b : List Char, listLexLeB a b = true ∨ listLexLeB b a = true := by
  intro a
  induction a with
  | nil => intro b; exact Or.inl rfl
  | cons x xs ih =>
    intro b
    cases b with
    | nil => exact Or.inr rfl
    | cons y ys =>
      by_cases h : x.toNat = y.toNat
      · have h' : y.toNat = x.toNat := h.symm
        rcases ih ys with hl | hl
        · exact Or.inl (by simp [listLexLeB, h, hl])
        · exact Or.inr (by simp [listLexLeB, h', hl])
      · rcases Nat.lt_or_ge x.toNat y.toNat with hlt | hge
        · exact Or.inl (by simp [listLexLeB, h, hlt])
        · have h' : y.toNat ≠ x.toNat := fun he => h he.symm
          have hlt : y.toNat < x.toNat := lt_of_le_of_ne hge h'
          exact Or.inr (by simp [listLexLeB, h', hlt])

theorem listLexLeB_trans : ∀ a b c : List Char,
    listLexLeB a b = true → listLexLeB b c = true → listLexLeB a c = true := by
  intro a
  induction a with
  | nil => intro b c _ _; rfl
  | cons x xs ih =>
    intro b c hab hbc
    cases b with
    | nil => simp [listLexLeB] at hab
    | cons y ys =>
      cases c with
      | nil => simp [listLexLeB] at hbc
      | cons z zs =>
        by_cases hxy : x.toNat = y.toNat <;> by_cases hyz : y.toNat = z.toNat
        · simp only [listLexLeB, hxy, if_true, hyz] at hab hbc
          simp [listLexLeB, hxy.trans hyz, ih ys zs hab hbc]
        · simp only [listLexLeB, hyz, if_false] at hbc
          rw [decide_eq_true_eq] at hbc
          have hxz : x.toNat < z.toNat := hxy ▸ hbc
          simp [listLexLeB, Nat.ne_of_lt hxz, hxz]
        · simp only [listLexLeB, hxy, if_false] at hab
          rw [decide_eq_true_eq] at hab
          have hxz : x.toNat < z.toNat := hyz ▸ hab
          simp [listLexLeB, Nat.ne_of_lt hxz, hxz]
        · simp only [listLexLeB, hxy, hyz, if_false] at hab hbc
          rw [decide_eq_true_eq] at hab hbc
          have hxz : x.toNat < z.toNat := lt_trans hab hbc
          simp [listLexLeB, Nat.ne_of_lt hxz, hxz]

theorem listLexLeB_antisymm : ∀ a b : List Char,
    listLexLeB a b = true → listLexLeB b a = true → a = b := by
  intro a
  induction a with
  | nil =>
    intro b _ hba
    cases b with
    | nil => rfl
    | cons y ys => simp [listLexLeB] at hba
  | cons x xs ih =>
    intro b hab hba
    cases b with
    | nil => simp [listLexLeB] at hab
    | cons y ys =>
      by_cases hxy : x.toNat = y.toNat
      · simp only [listLexLeB, hxy, if_true] at hab hba
        have hx : x = y := Char.ext (UInt32.toNat.inj hxy)
        rw [hx, ih ys hab hba]
      · have hyx : y.toNat ≠ x.toNat := fun he => hxy he.symm
        simp only [listLexLeB, hxy, hyx, if_false] at hab hba
        rw [decide_eq_true_eq] at hab hba
        exact absurd hba (Nat.lt_asymm hab)

theorem strLeB_total (a b : String) : strLeB a b = true ∨ strLeB b a = true :=
  listLexLeB_total a.data b.data

theorem strLeB_trans {a b c : String} (hab : strLeB a b = true) (hbc : strLeB b c = true) :
    strLeB a c = true :=
  listLexLeB_trans a.data b.data c.data hab hbc

theorem strLeB_antisymm {a b : String} (hab : strLeB a b = true) (hba : strLeB b a = true) :
    a = b := by
  have h := listLexLeB_antisymm a.data b.data hab hba
  cases a; cases b; simp_all

/-! ### Order instances used by the sorting lemmas -/

instance : IsTotal Val valLe := by
  constructor
  intro a b
  cases a <;> cases b <;> simp [valLe, valLeB] <;>
    first
      | exact le_total _ _
      | exact strLeB_total _ _

instance : IsTrans Val valLe := by
  constructor
  intro a b c hab hbc
  cases a <;> cases b <;> cases c <;> simp_all [valLe, valLeB] <;>
    first
      | exact le_trans hab hbc
      | exact strLeB_trans hab hbc

instance : IsAntisymm Val valLe := by
  constructor
  intro a b hab hba
  cases a <;> cases b <;> simp_all [valLe, valLeB] <;>
    first
      | exact strLeB_antisymm hab hba
      | exact le_antisymm hab hba

instance : IsTotal TsRow tsTimeLe := ⟨fun a b => Int.le_total a.time b.time⟩

instance : IsTrans TsRow tsTimeLe := ⟨fun _ _ _ hab hbc => le_trans hab hbc⟩

instance : IsTotal TsRow tsKeyLe := by
  constructor
  intro a b
  unfold tsKeyLe tsKeyLeB
  by_cases h : a.truck_id = b.truck_id
  · simp [h]
    exact strLeB_total _ _
  · have h' : b.truck_id ≠ a.truck_id := fun he => h he.symm
    simp [h, h']
    exact strLeB_total _ _

instance : IsTrans TsRow tsKeyLe := by
  constructor
  intro a b c hab hbc
  unfold tsKeyLe tsKeyLeB at *
  by_cases hab' : a.truck_id = b.truck_id <;> by_cases hbc' : b.truck_id = c.truck_id
  · simp only [hab', if_true, hbc'] at hab hbc
    simp [hab'.trans hbc', strLeB_trans hab hbc]
  · simp only [hab', if_true, hbc', if_false] at hab hbc
    have hac : a.truck_id ≠ c.truck_id := fun he => hbc' (hab' ▸ he)
    rw [← hab'] at hbc
    simp [hac, hbc]
  · simp only [hab', hbc', if_false, if_true] at hab hbc
    have hac : a.truck_id ≠ c.truck_id := fun he => hab' (he.trans hbc'.symm)
    rw [if_neg hac] at hab
    simp [hac, hab]
  · simp only [hab', hbc', if_false] at hab hbc
    by_cases hac : a.truck_id = c.truck_id
    · exact absurd (strLeB_antisymm hab (hac ▸ hbc)) hab'
    · simp [hac, strLeB_trans hab hbc]

/-! ### Helper lemmas: keep-last deduplication and keep-first uniqueness -/

theorem dropDupLast_mem {α β : Type} [DecidableEq β] (key : α → β) :
    ∀ {l : List α} {r : α}, r ∈ dropDupLast key l → r ∈ l := by
  intro l
  induction l with
  | nil => intro r hr; cases hr
  | cons x xs ih =>
    intro r hr
    unfold dropDupLast at hr
    rcases List.mem_append.1 hr with hr | hr
    · by_cases hc : xs.any (fun y => decide (key y = key x)) = true
      · rw [if_pos hc] at hr; cases hr
      · rw [if_neg hc] at hr
        rw [List.mem_singleton] at hr
        exact hr ▸ List.mem_cons_self x xs
    · exact List.mem_cons_of_mem x (ih hr)

theorem dropDupLast_countP {α β : Type} [DecidableEq β] (key : α → β) (k : β) :
    ∀ l : List α,
      (dropDupLast key l).countP (fun a => decide (key a = k)) =
        if l.any (fun a => decide (key a = k)) = true then 1 else 0 := by
  intro l
  induction l with
  | nil => rfl
  | cons x xs ih =>
    unfold dropDupLast
    rw [List.countP_append, List.any_cons]
    by_cases hc : xs.any (fun y => decide (key y = key x)) = true
    · rw [if_pos hc]
      by_cases hk : key x = k
      · have hxs : xs.any (fun a => decide (key a = k)) = true := by
          rw [List.any_eq_true] at hc ⊢
          obtain ⟨y, hy, hyk⟩ := hc
          rw [decide_eq_true_eq] at hyk
          exact ⟨y, hy, by simp [hyk, hk]⟩
        simp [ih, hk, hxs]
      · simp [ih, hk]
    · rw [if_neg hc]
      have hc' : xs.any (fun y => decide (key y = key x)) = false := by
        simpa using hc
      by_cases hk : key x = k
      · have hxs : xs.any (fun a => decide (key a = k)) = false := by
          rw [List.any_eq_false] at hc' ⊢
          intro y hy hcon
          apply hc' y hy
          rw [decide_eq_true_eq] at hcon ⊢
          rw [hcon, hk]
        simp [ih, hk, hxs]
      · simp [ih, hk]

theorem dropDupLast_le_of_pairwise {α β : Type} [DecidableEq β] (key : α → β)
    (rel : α → α → Prop) :
    ∀ {l : List α}, l.Pairwise rel → ∀ {r : α}, r ∈ dropDupLast key l →
      ∀ s ∈ l, key s = key r → s = r ∨ rel s r := by
  intro l
  induction l with
  | nil => intro _ r hr; cases hr
  | cons x xs ih =>
    intro hp r hr s hs hkey
    rw [List.pairwise_cons] at hp
    unfold dropDupLast at hr
    rcases List.mem_append.1 hr with hr1 | hr2
    · by_cases hc : xs.any (fun y => decide (key y = key x)) = true
      · rw [if_pos hc] at hr1; cases hr1
      · rw [if_neg hc] at hr1
        rw [List.mem_singleton] at hr1
        rcases List.mem_cons.1 hs with hsx | hs2
        · exact Or.inl (hsx.trans hr1.symm)
        · exfalso
          apply hc
          rw [List.any_eq_true]
          refine ⟨s, hs2, ?_⟩
          rw [decide_eq_true_eq, hkey, hr1]
    · rcases List.mem_cons.1 hs with hsx | hs2
      · subst hsx
        exact Or.inr (hp.1 r (dropDupLast_mem key hr2))
      · exact ih hp.2 hr2 s hs2 hkey

theorem dedupFirstAux_mem {α : Type} [DecidableEq α] :
    ∀ (l seen : List α) (x : α), x ∈ dedupFirstAux seen l ↔ (x ∈ l ∧ x ∉ seen) := by
  intro l
  induction l with
  | nil => intro seen x; simp [dedupFirstAux]
  | cons y ys ih =>
    intro seen x
    unfold dedupFirstAux
    by_cases hy : y ∈ seen
    · rw [if_pos hy, ih seen x]
      constructor
      · rintro ⟨hx, hxs⟩
        exact ⟨List.mem_cons_of_mem y hx, hxs⟩
      · rintro ⟨hx, hxs⟩
        rcases List.mem_cons.1 hx with rfl | hx
        · exact absurd hy hxs
        · exact ⟨hx, hxs⟩
    · rw [if_neg hy]
      rw [List.mem_cons, ih (y :: seen) x]
      constructor
      · rintro (hxy | ⟨hx, hxs⟩)
        · subst hxy
          exact ⟨List.mem_cons_self _ _, hy⟩
        · exact ⟨List.mem_cons_of_mem y hx, fun hc => hxs (List.mem_cons_of_mem y hc)⟩
      · rintro ⟨hx, hxs⟩
        by_cases hxy : x = y
        · exact Or.inl hxy
        · rcases List.mem_cons.1 hx with rfl | hx
          · exact Or.inl rfl
          · exact Or.inr ⟨hx, fun hc => by
              rcases List.mem_cons.1 hc with h | h
              · exact hxy h
              · exact hxs h⟩

theorem dedupFirstAux_nodup {α : Type} [DecidableEq α] :
    ∀ (l seen : List α), (dedupFirstAux seen l).Nodup := by
  intro l
  induction l with
  | nil => intro seen; exact List.nodup_nil
  | cons y ys ih =>
    intro seen
    unfold dedupFirstAux
    by_cases hy : y ∈ seen
    · rw [if_pos hy]; exact ih seen
    · rw [if_neg hy]
      rw [List.nodup_cons]
      refine ⟨fun hc => ?_, ih (y :: seen)⟩
      exact ((dedupFirstAux_mem ys (y :: seen) y).1 hc).2 (List.mem_cons_self y seen)

theorem dedupFirst_mem {α : Type} [DecidableEq α] (l : List α) (x : α) :
    x ∈ dedupFirst l ↔ x ∈ l := by
  unfold dedupFirst
  rw [dedupFirstAux_mem]
  simp

theorem dedupFirst_nodup {α : Type} [DecidableEq α] (l : List α) : (dedupFirst l).Nodup :=
  dedupFirstAux_nodup l []

theorem perm_any_eq {α : Type} {l₁ l₂ : List α} (h : l₁.Perm l₂) (p : α → Bool) :
    l₁.any p = l₂.any p := by
  cases hb : l₂.any p
  · rw [List.any_eq_false] at hb ⊢
    intro x hx
    exact hb x (h.mem_iff.1 hx)
  · rw [List.any_eq_true] at hb ⊢
    obtain ⟨x, hx, hp⟩ := hb
    exact ⟨x, h.mem_iff.2 hx, hp⟩

/-! ### C3: latest-per-(entity, metric) selection -/

/-- C3: for every time-series frame whose timestamps are distinct within each
(entity, metric) group (the tie-break on equal timestamps is explicitly
unspecified), `latest_per_entity_metric` returns exactly one row per
(entity, metric) pair occurring in the input, that row comes from the input
and strictly dominates every other row of its pair in timestamp (so it is
exactly the row with the maximum timestamp), and the returned rows are
sorted by (entity_id, metric) ascending. -/
theorem C3_latest_selection (ts : List TsRow)
    (hdist : ∀ r ∈ ts, ∀ s ∈ ts, r.truck_id = s.truck_id → r.metric = s.metric →
      r ≠ s → r.time ≠ s.time) :
    (∀ p : String × String,
      (latest_per_entity_metric ts).countP (fun r => decide ((r.truck_id, r.metric) = p)) =
        if ts.any (fun r => decide ((r.truck_id, r.metric) = p)) = true then 1 else 0) ∧
    (∀ r ∈ latest_per_entity_metric ts, r ∈ ts ∧
      ∀ s ∈ ts, s.truck_id = r.truck_id → s.metric = r.metric → s ≠ r → s.time < r.time) ∧
    List.Sorted tsKeyLe (latest_per_entity_metric ts) := by
  have hperm : (List.insertionSort tsTimeLe ts).Perm ts := List.perm_insertionSort tsTimeLe ts
  have hsorted : List.Sorted tsTimeLe (List.insertionSort tsTimeLe ts) :=
    List.sorted_insertionSort tsTimeLe ts
  have hperm2 :
      (List.insertionSort tsKeyLe
          (dropDupLast (fun r => (r.truck_id, r.metric)) (List.insertionSort tsTimeLe ts))).Perm
        (dropDupLast (fun r => (r.truck_id, r.metric)) (List.insertionSort tsTimeLe ts)) :=
    List.perm_insertionSort tsKeyLe _
  refine ⟨?_, ?_, ?_⟩
  · intro p
    calc (latest_per_entity_metric ts).countP (fun r => decide ((r.truck_id, r.metric) = p))
        = (dropDupLast (fun r => (r.truck_id, r.metric))
              (List.insertionSort tsTimeLe ts)).countP
            (fun r => decide ((r.truck_id, r.metric) = p)) :=
          List.Perm.countP_eq _ hperm2
      _ = if (List.insertionSort tsTimeLe ts).any
              (fun r => decide ((r.truck_id, r.metric) = p)) = true then 1 else 0 :=
          dropDupLast_countP (fun r : TsRow => (r.truck_id, r.metric)) p _
      _ = if ts.any (fun r => decide ((r.truck_id, r.metric) = p)) = true then 1 else 0 := by
          rw [perm_any_eq hperm]
  · intro r hr
    have hrD : r ∈ dropDupLast (fun r => (r.truck_id, r.metric)) (List.insertionSort tsTimeLe ts) :=
      (List.mem_insertionSort tsKeyLe).1 hr
    have hrS : r ∈ List.insertionSort tsTimeLe ts := dropDupLast_mem _ hrD
    have hrts : r ∈ ts := hperm.mem_iff.1 hrS
    refine ⟨hrts, ?_⟩
    intro s hs hst hsm hne
    have hsS : s ∈ List.insertionSort tsTimeLe ts := hperm.mem_iff.2 hs
    have hkey : (s.truck_id, s.metric) = (r.truck_id, r.metric) := by
      simp [hst, hsm]
    rcases dropDupLast_le_of_pairwise (fun r => (r.truck_id, r.metric)) tsTimeLe
        hsorted hrD s hsS hkey with heq | hle
    · exact absurd heq hne
    · have hneq : s.time ≠ r.time := hdist s hs r hrts hst hsm hne
      exact lt_of_le_of_ne hle hneq
  · exact List.sorted_insertionSort tsKeyLe _

/-- Witness for C3: three readings of the same (entity, metric) with
timestamps 1 < 2 < 3 — only the timestamp-3 row's value is returned — plus
an instance of the count property. -/
theorem C3_latest_selection_witness :
    latest_per_entity_metric
        [⟨1, "T1", "co2", 10⟩, ⟨3, "T1", "co2", 30⟩, ⟨2, "T1", "co2", 20⟩] =
      [⟨3, "T1", "co2", 30⟩] ∧
    (latest_per_entity_metric
        ([⟨1, "T1", "co2", 10⟩, ⟨3, "T1", "co2", 30⟩, ⟨2, "T1", "co2", 20⟩] : List TsRow)).countP
        (fun r => decide ((r.truck_id, r.metric) = ("T1", "co2"))) =
      if ([⟨1, "T1", "co2", 10⟩, ⟨3, "T1", "co2", 30⟩, ⟨2, "T1", "co2", 20⟩] : List TsRow).any
          (fun r => decide ((r.truck_id, r.metric) = ("T1", "co2"))) = true then 1 else 0 :=
  ⟨by decide,
    (C3_latest_selection [⟨1, "T1", "co2", 10⟩, ⟨3, "T1", "co2", 30⟩, ⟨2, "T1", "co2", 20⟩]
      (by decide)).1 ("T1", "co2")⟩

/-! ### Entity-listing helper lemmas -/

theorem mkTruckFrame_vals (l : List Val) :
    (mkTruckFrame l).rows.map (fun r => (rowGet r "truck_id").getD Val.null) = l := by
  unfold mkTruckFrame
  rw [List.map_map]
  have h : ((fun r => (rowGet r "truck_id").getD Val.null) ∘ fun v => [("truck_id", v)]) =
      fun v : Val => v := by
    funext v
    simp [Function.comp, rowGet]
  rw [h, List.map_id']

theorem list_trucks_body_mkTruck (l : List Val) (hl : l ≠ []) :
    list_trucks_body (mkTruckFrame l) =
      List.insertionSort valLe
        ((dedupFirst (l.filter (fun v => v ≠ Val.null))).filter valTruthy) := by
  have hni : (mkTruckFrame l).isEmpty = false := by
    cases l with
    | nil => exact absurd rfl hl
    | cons a as => rfl
  have hcols : "truck_id" ∈ (mkTruckFrame l).cols := by simp [mkTruckFrame]
  unfold list_trucks_body
  rw [if_neg (by simp [hni, hcols])]
  rw [mkTruckFrame_vals]

theorem list_trucks_body_mem_mkTruck (l : List Val) (v : Val) :
    v ∈ list_trucks_body (mkTruckFrame l) ↔ (v ∈ l ∧ valTruthy v = true) := by
  by_cases hl : l = []
  · subst hl
    simp [list_trucks_body, mkTruckFrame, Frame.isEmpty]
  · rw [list_trucks_body_mkTruck l hl, List.mem_insertionSort, List.mem_filter,
      dedupFirst_mem, List.mem_filter]
    constructor
    · rintro ⟨⟨hv, _⟩, ht⟩
      exact ⟨hv, ht⟩
    · rintro ⟨hv, ht⟩
      refine ⟨⟨hv, ?_⟩, ht⟩
      rw [decide_eq_true_eq]
      intro hc
      subst hc
      simp [valTruthy] at ht

theorem list_trucks_body_truthy (f : Frame) (v : Val) (hv : v ∈ list_trucks_body f) :
    valTruthy v = true := by
  unfold list_trucks_body at hv
  split at hv
  · cases hv
  · rw [List.mem_insertionSort] at hv
    exact (List.mem_filter.1 hv).2

theorem list_trucks_body_sorted (f : Frame) : List.Sorted valLe (list_trucks_body f) := by
  unfold list_trucks_body
  split
  · exact List.sorted_nil
  · exact List.sorted_insertionSort valLe _

theorem list_trucks_body_nodup (f : Frame) : (list_trucks_body f).Nodup := by
  unfold list_trucks_body
  split
  · exact List.nodup_nil
  · exact (List.perm_insertionSort valLe _).nodup_iff.2 ((dedupFirst_nodup _).filter _)

/-! ### C9: entity-listing order/duplication invariance -/

/-- C9: over string entity identifiers (with the empty string absent — its
exclusion is the separate implicit claim C10), `list_trucks` returns the
distinct non-null identifiers, lexicographically sorted and deduplicated,
and its output depends only on the set of identifiers in the input —
invariant under permutation and duplication. -/
theorem C9_entity_listing_invariance (l₁ l₂ : List Val)
    (hstr : ∀ v ∈ l₁, valIsStr v = true) (hne : Val.str "" ∉ l₁)
    (hsub₁ : ∀ v ∈ l₁, v ∈ l₂) (hsub₂ : ∀ v ∈ l₂, v ∈ l₁) :
    list_trucks_post (TablesResult.df (mkTruckFrame l₁)) =
        list_trucks_post (TablesResult.df (mkTruckFrame l₂)) ∧
      List.Sorted valLe (list_trucks_post (TablesResult.df (mkTruckFrame l₁))) ∧
      (list_trucks_post (TablesResult.df (mkTruckFrame l₁))).Nodup ∧
      (∀ v, v ∈ list_trucks_post (TablesResult.df (mkTruckFrame l₁)) ↔
        (v ∈ l₁ ∧ v ≠ Val.null)) := by
  have hb₁ : list_trucks_post (TablesResult.df (mkTruckFrame l₁)) =
      list_trucks_body (mkTruckFrame l₁) := rfl
  have hb₂ : list_trucks_post (TablesResult.df (mkTruckFrame l₂)) =
      list_trucks_body (mkTruckFrame l₂) := rfl
  refine ⟨?_, ?_, ?_, ?_⟩
  · rw [hb₁, hb₂]
    apply List.eq_of_perm_of_sorted _ (list_trucks_body_sorted _) (list_trucks_body_sorted _)
    apply (List.perm_ext_iff_of_nodup (list_trucks_body_nodup _) (list_trucks_body_nodup _)).2
    intro a
    rw [list_trucks_body_mem_mkTruck, list_trucks_body_mem_mkTruck]
    constructor
    · rintro ⟨ha, ht⟩
      exact ⟨hsub₁ a ha, ht⟩
    · rintro ⟨ha, ht⟩
      exact ⟨hsub₂ a ha, ht⟩
  · rw [hb₁]
    exact list_trucks_body_sorted _
  · rw [hb₁]
    exact list_trucks_body_nodup _
  · intro v
    rw [hb₁, list_trucks_body_mem_mkTruck]
    constructor
    · rintro ⟨hv, ht⟩
      refine ⟨hv, ?_⟩
      intro hc
      subst hc
      simp [valTruthy] at ht
    · rintro ⟨hv, hnn⟩
      refine ⟨hv, ?_⟩
      have hs := hstr v hv
      cases v with
      | str s =>
        simp only [valTruthy, decide_eq_true_eq]
        intro hc
        subst hc
        exact hne hv
      | num q => exact absurd hs (by simp [valIsStr])
      | null => exact absurd rfl hnn

/-- Witness for C9: the identifiers T3, T1, T2 (with a duplicate) yield
exactly `[T1, T2, T3]`, and equal the listing of the same set in another
order without duplication. -/
theorem C9_entity_listing_invariance_witness :
    list_trucks_post (TablesResult.df (mkTruckFrame
        [Val.str "T3", Val.str "T1", Val.str "T2", Val.str "T1"])) =
      [Val.str "T1", Val.str "T2", Val.str "T3"] ∧
    list_trucks_post (TablesResult.df (mkTruckFrame
        [Val.str "T3", Val.str "T1", Val.str "T2", Val.str "T1"])) =
      list_trucks_post (TablesResult.df (mkTruckFrame
        [Val.str "T1", Val.str "T2", Val.str "T3"])) :=
  ⟨by decide,
    (C9_entity_listing_invariance
      [Val.str "T3", Val.str "T1", Val.str "T2", Val.str "T1"]
      [Val.str "T1", Val.str "T2", Val.str "T3"]
      (by decide) (by decide) (by decide) (by decide)).1⟩

/-! ### C10: falsy identifiers are excluded from the listing -/

/-- C10: no element of `list_trucks`' output is the empty string, for every
store response — the `if t` truthiness filter removes it. -/
theorem C10_no_empty_string_identifier (tables : TablesResult) (v : Val)
    (hv : v ∈ list_trucks_post tables) : v ≠ Val.str "" := by
  intro hc
  subst hc
  have ht : valTruthy (Val.str "") = true := by
    cases tables with
    | df f => exact list_trucks_body_truthy f _ hv
    | frames fs =>
      cases fs with
      | nil => cases hv
      | cons g gs => exact list_trucks_body_truthy _ _ hv
  simp [valTruthy] at ht

/-- Witness for C10: a response containing both `T1` and the empty string
lists `T1`, and the theorem applies to it. -/
theorem C10_no_empty_string_identifier_witness :
    Val.str "T1" ∈ list_trucks_post (TablesResult.df (mkTruckFrame
        [Val.str "T1", Val.str ""])) ∧
      Val.str "T1" ≠ Val.str "" :=
  ⟨by decide,
    C10_no_empty_string_identifier
      (TablesResult.df (mkTruckFrame [Val.str "T1", Val.str ""])) (Val.str "T1") (by decide)⟩

/-! ### Row-lookup and counting helpers for the join pipeline -/

theorem rowGet_cons (k : String) (v : Val) (t : Row) (c : String) :
    rowGet ((k, v) :: t) c = if k = c then some v else rowGet t c := rfl

theorem rowGet_append_of_isSome {a : Row} (b : Row) {c : String}
    (h : (rowGet a c).isSome = true) : rowGet (a ++ b) c = rowGet a c := by
  induction a with
  | nil => cases h
  | cons kv t ih =>
    rcases kv with ⟨k, v⟩
    rw [List.cons_append, rowGet_cons, rowGet_cons]
    rw [rowGet_cons] at h
    by_cases hk : k = c
    · rw [if_pos hk, if_pos hk]
    · rw [if_neg hk, if_neg hk]
      rw [if_neg hk] at h
      exact ih h

theorem rowGet_append_of_none {a : Row} (b : Row) {c : String}
    (h : rowGet a c = none) : rowGet (a ++ b) c = rowGet b c := by
  induction a with
  | nil => rfl
  | cons kv t ih =>
    rcases kv with ⟨k, v⟩
    rw [List.cons_append, rowGet_cons]
    rw [rowGet_cons] at h
    by_cases hk : k = c
    · rw [if_pos hk] at h
      cases h
    · rw [if_neg hk]
      rw [if_neg hk] at h
      exact ih h

theorem rowGet_map_pair {α : Type} (L : List α) (nm : α → String) (g : α → Val) (m : String) :
    rowGet (L.map (fun a => (nm a, g a))) m =
      (L.find? (fun a => decide (nm a = m))).map g := by
  induction L with
  | nil => rfl
  | cons x xs ih =>
    rw [List.map_cons, List.find?_cons, rowGet_cons]
    by_cases hx : nm x = m
    · rw [if_pos hx]
      have hd : decide (nm x = m) = true := by simp [hx]
      rw [hd]
      rfl
    · rw [if_neg hx]
      have hd : decide (nm x = m) = false := by simp [hx]
      rw [hd]
      exact ih

theorem any_map_general {α β : Type} (f : α → β) (p : β → Bool) (l : List α) :
    (l.map f).any p = l.any (fun a => p (f a)) := by
  induction l with
  | nil => rfl
  | cons x xs ih => simp [List.any_cons, ih]

theorem countP_congr_list {α : Type} {p q : α → Bool} :
    ∀ {l : List α}, (∀ a ∈ l, p a = q a) → l.countP p = l.countP q := by
  intro l
  induction l with
  | nil => intro _; rfl
  | cons x xs ih =>
    intro h
    rw [List.countP_cons, List.countP_cons, ih (fun a ha => h a (List.mem_cons_of_mem x ha)),
      h x (List.mem_cons_self x xs)]

theorem countP_le_one_of_nodup {α : Type} [DecidableEq α] {l : List α} (h : l.Nodup) (u : α) :
    l.countP (fun t => decide (t = u)) ≤ 1 := by
  induction l with
  | nil => exact Nat.zero_le 1
  | cons x xs ih =>
    rw [List.nodup_cons] at h
    rw [List.countP_cons]
    by_cases hx : x = u
    · have hz : xs.countP (fun t => decide (t = u)) = 0 := by
        rw [List.countP_eq_zero]
        intro a ha
        rw [decide_eq_true_eq]
        intro hc
        exact h.1 ((hc.trans hx.symm) ▸ ha)
      simp [hz, hx]
    · have hd : decide (x = u) = false := by simp [hx]
      rw [hd]
      simpa using ih h.2

theorem dropDupLast_ne_nil {α β : Type} [DecidableEq β] (key : α → β) :
    ∀ {l : List α}, l ≠ [] → dropDupLast key l ≠ [] := by
  intro l
  induction l with
  | nil => intro h; exact absurd rfl h
  | cons x xs ih =>
    intro _
    unfold dropDupLast
    by_cases hc : xs.any (fun y => decide (key y = key x)) = true
    · rw [if_pos hc]
      have hxs : xs ≠ [] := by
        intro he
        rw [he] at hc
        cases hc
      simpa using ih hxs
    · rw [if_neg hc]
      simp

/-! ### Reduction of `query_latest_coords` on single-frame responses -/

theorem qlc_constructed (l₁ : List CEntry) (l₂ : List MEntry) :
    query_latest_coords (some (TablesResult.df (mkCoordsFrame l₁)))
        (some (TablesResult.df (mkMetricsFrame l₂))) =
      (let cdf := cleanCoords (mkCoordsFrame l₁)
       let pf := filterNotna "truck_id"
         (renameFrame [("_time", "time"), ("_field", "metric"), ("_value", "metric_value")]
           (mkMetricsFrame l₂))
       let mdf := pivotBody
         ⟨pf.cols, dropDupLast (fun r => ["truck_id", "metric"].map (rowGet r)) pf.rows⟩
       if cdf.isEmpty = true then Except.ok (if ¬ mdf.isEmpty = true then mdf else Frame.empty)
       else if mdf.isEmpty = true then Except.ok cdf
       else mergeLeftOn "truck_id" cdf mdf) := by
  cases l₁ <;> cases l₂ <;> rfl

/-! ### Map-fusion lemmas for the constructed frames -/

theorem dropDupLast_map {α β γ : Type} [DecidableEq γ] (key : β → γ) (f : α → β) :
    ∀ l : List α, dropDupLast key (l.map f) = (dropDupLast (fun a => key (f a)) l).map f := by
  intro l
  induction l with
  | nil => rfl
  | cons x xs ih =>
    rw [List.map_cons]
    unfold dropDupLast
    have hmap : (List.map f xs).any (fun y => decide (key y = key (f x))) =
        xs.any (fun a => decide (key (f a) = key (f x))) := any_map_general f _ xs
    rw [hmap, List.map_append, ih]
    by_cases hc : xs.any (fun a => decide (key (f a) = key (f x))) = true
    · rw [if_pos hc, if_pos hc]
      rfl
    · rw [if_neg hc, if_neg hc]
      rfl

theorem cleanCoords_mk (l : List CEntry) :
    cleanCoords (mkCoordsFrame l) =
      ⟨["truck_id", "lat", "lon", "time_lat", "time_lon"],
        (dropDupLast (fun e => rowGet (mkCoordRow e) "truck_id")
          (l.filter (fun e => e.truck_id.isSome))).map mkCoordRow⟩ := by
  unfold cleanCoords mkCoordsFrame
  congr 1
  rw [List.filter_map]
  have hpred : ((fun r => notna (rowGet r "truck_id")) ∘ mkCoordRow) =
      (fun e : CEntry => e.truck_id.isSome) := by
    funext e
    cases he : e.truck_id <;>
      simp [Function.comp, mkCoordRow, rowGet, notna, optStrVal, he]
  rw [hpred, dropDupLast_map]

theorem prep_metrics_mk (l₂ : List MEntry) :
    (⟨(filterNotna "truck_id"
         (renameFrame [("_time", "time"), ("_field", "metric"), ("_value", "metric_value")]
           (mkMetricsFrame l₂))).cols,
       dropDupLast (fun r => ["truck_id", "metric"].map (rowGet r))
         (filterNotna "truck_id"
           (renameFrame [("_time", "time"), ("_field", "metric"), ("_value", "metric_value")]
             (mkMetricsFrame l₂))).rows⟩ : Frame) =
      ⟨["time", "truck_id", "metric", "metric_value"],
        (dropDupLast (fun e => ["truck_id", "metric"].map (rowGet (mkMetricRowRenamed e)))
          (l₂.filter (fun e => e.truck_id.isSome))).map mkMetricRowRenamed⟩ := by
  have hren : renameFrame [("_time", "time"), ("_field", "metric"), ("_value", "metric_value")]
      (mkMetricsFrame l₂) =
      ⟨["time", "truck_id", "metric", "metric_value"], l₂.map mkMetricRowRenamed⟩ := by
    unfold renameFrame mkMetricsFrame
    congr 1
    rw [List.map_map]
    exact List.map_congr_left (fun e _ => rfl)
  rw [hren]
  unfold filterNotna
  dsimp only
  congr 1
  rw [List.filter_map]
  have hpred : ((fun r => notna (rowGet r "truck_id")) ∘ mkMetricRowRenamed) =
      (fun e : MEntry => e.truck_id.isSome) := by
    funext e
    cases he : e.truck_id <;>
      simp [Function.comp, mkMetricRowRenamed, rowGet, notna, optStrVal, he]
  rw [hpred, dropDupLast_map]

/-! ### Pivot-body lemmas -/

theorem pivotBody_rows (f : Frame) :
    (pivotBody f).rows =
      (List.insertionSort valLe
        (dedupFirst ((f.rows.map (fun r => (rowGet r "truck_id").getD Val.null)).filter
          (fun v => v ≠ Val.null)))).map
        (fun t => ("truck_id", t) ::
          (List.insertionSort valLe
            (dedupFirst ((f.rows.map (fun r => (rowGet r "metric").getD Val.null)).filter
              (fun v => v ≠ Val.null)))).map
            (fun m => (valLabel m,
              ((((f.rows.filter (fun r =>
                    (rowGet r "truck_id").getD Val.null = t ∧
                      (rowGet r "metric").getD Val.null = m)).map
                  (fun r => (rowGet r "metric_value").getD Val.null)).getLast?).getD
                Val.null)))) := rfl

theorem pivotBody_cols (f : Frame) :
    (pivotBody f).cols = "truck_id" ::
      (List.insertionSort valLe
        (dedupFirst ((f.rows.map (fun r => (rowGet r "metric").getD Val.null)).filter
          (fun v => v ≠ Val.null)))).map valLabel := rfl

theorem countP_comp_head (L : List Val) (rest : Val → Row) (w : Option Val) :
    L.countP ((fun rr => decide (rowGet rr "truck_id" = w)) ∘
      (fun t => ("truck_id", t) :: rest t)) = L.countP (fun t => decide (some t = w)) := by
  apply countP_congr_list
  intro t _
  simp [Function.comp, rowGet]

theorem pivot_truck_countP_le_one (f : Frame) (w : Option Val) :
    (pivotBody f).rows.countP (fun rr => decide (rowGet rr "truck_id" = w)) ≤ 1 := by
  rw [pivotBody_rows, List.countP_map, countP_comp_head]
  have hnodup : (List.insertionSort valLe
      (dedupFirst ((f.rows.map (fun r => (rowGet r "truck_id").getD Val.null)).filter
        (fun v => v ≠ Val.null)))).Nodup :=
    (List.perm_insertionSort valLe _).nodup_iff.2 (dedupFirst_nodup _)
  cases w with
  | none =>
    have hz := List.countP_eq_zero.2
      (fun (t : Val) _ => by simp :
        ∀ t ∈ (List.insertionSort valLe
          (dedupFirst ((f.rows.map (fun r => (rowGet r "truck_id").getD Val.null)).filter
            (fun v => v ≠ Val.null)))), ¬ (fun t => decide (some t = none)) t = true)
    rw [hz]
    exact Nat.zero_le 1
  | some u =>
    have hcong := countP_congr_list
      (fun (t : Val) _ => by simp :
        ∀ t ∈ (List.insertionSort valLe
          (dedupFirst ((f.rows.map (fun r => (rowGet r "truck_id").getD Val.null)).filter
            (fun v => v ≠ Val.null)))),
          (fun t => decide (some t = some u)) t = (fun t => decide (t = u)) t)
    rw [hcong]
    exact countP_le_one_of_nodup hnodup u

theorem pivot_truck_nonnull (f : Frame) (r : Row) (hr : r ∈ (pivotBody f).rows) :
    ∃ t : Val, rowGet r "truck_id" = some t ∧ t ≠ Val.null := by
  rw [pivotBody_rows] at hr
  rcases List.mem_map.1 hr with ⟨t, ht, rfl⟩
  refine ⟨t, rfl, ?_⟩
  rw [List.mem_insertionSort, dedupFirst_mem] at ht
  have h2 := (List.mem_filter.1 ht).2
  rw [decide_eq_true_eq] at h2
  exact h2

/-! ### Left-merge lemmas -/

theorem mergeLeftOn_ok_countP (key : String) (l r : Frame)
    (hkl : key ∈ l.cols) (hkr : key ∈ r.cols)
    (hl : ∀ lr ∈ l.rows, (rowGet lr key).isSome = true)
    (hr1 : ∀ w : Option Val, r.rows.countP (fun rr => decide (rowGet rr key = w)) ≤ 1)
    (w : Val) :
    ∃ g, mergeLeftOn key l r = Except.ok g ∧
      g.rows.countP (fun rr => decide (rowGet rr key = some w)) =
        l.rows.countP (fun lr => decide (rowGet lr key = some w)) := by
  unfold mergeLeftOn
  rw [if_pos ⟨hkl, hkr⟩]
  refine ⟨_, rfl, ?_⟩
  dsimp only
  suffices h : ∀ ls : List Row, (∀ lr ∈ ls, (rowGet lr key).isSome = true) →
      ((ls.map (fun lr =>
        if (r.rows.filter (fun rr => rowGet rr key = rowGet lr key)).isEmpty = true then
          [lr ++ (r.cols.filter (fun c => c ≠ key)).map (fun c => (c, Val.null))]
        else (r.rows.filter (fun rr => rowGet rr key = rowGet lr key)).map
          (fun rr => lr ++ rr.filter (fun kv => kv.1 ≠ key)))).flatten).countP
        (fun rr => decide (rowGet rr key = some w)) =
      ls.countP (fun lr => decide (rowGet lr key = some w)) by
    exact h l.rows hl
  intro ls
  induction ls with
  | nil => intro _; rfl
  | cons lr ls ih =>
    intro hall
    have hhead : (rowGet lr key).isSome = true := hall lr (List.mem_cons_self _ _)
    have htail : ∀ a ∈ ls, (rowGet a key).isSome = true :=
      fun a ha => hall a (List.mem_cons_of_mem _ ha)
    rw [List.map_cons, List.flatten_cons, List.countP_append, ih htail, List.countP_cons]
    have hblock : (if (r.rows.filter (fun rr => rowGet rr key = rowGet lr key)).isEmpty = true then
          [lr ++ (r.cols.filter (fun c => c ≠ key)).map (fun c => (c, Val.null))]
        else (r.rows.filter (fun rr => rowGet rr key = rowGet lr key)).map
          (fun rr => lr ++ rr.filter (fun kv => kv.1 ≠ key))).countP
        (fun rr => decide (rowGet rr key = some w)) =
        if decide (rowGet lr key = some w) = true then 1 else 0 := by
      by_cases hms : (r.rows.filter (fun rr => rowGet rr key = rowGet lr key)).isEmpty = true
      · rw [if_pos hms, List.countP_cons, List.countP_nil]
        rw [rowGet_append_of_isSome _ hhead]
        simp
      · rw [if_neg hms, List.countP_map]
        have hpt : ∀ rr ∈ r.rows.filter (fun rr => rowGet rr key = rowGet lr key),
            ((fun rr => decide (rowGet rr key = some w)) ∘
              (fun rr => lr ++ rr.filter (fun kv => kv.1 ≠ key))) rr =
            (fun _ => decide (rowGet lr key = some w)) rr := by
          intro rr _
          simp only [Function.comp]
          rw [rowGet_append_of_isSome _ hhead]
        rw [countP_congr_list hpt]
        have hlen : (r.rows.filter (fun rr => rowGet rr key = rowGet lr key)).length = 1 := by
          have hle : (r.rows.filter (fun rr => rowGet rr key = rowGet lr key)).length ≤ 1 := by
            rw [← List.countP_eq_length_filter]
            exact hr1 (rowGet lr key)
          have hge : 0 < (r.rows.filter (fun rr => rowGet rr key = rowGet lr key)).length := by
            rw [List.length_pos]
            intro hc
            rw [hc] at hms
            exact hms rfl
          exact Nat.le_antisymm hle hge
        cases hd : decide (rowGet lr key = some w) with
        | false => simp
        | true => simp [List.countP_true, hlen]
    rw [hblock]
    omega

theorem any_congr_list {α : Type} {p q : α → Bool} :
    ∀ {l : List α}, (∀ a ∈ l, p a = q a) → l.any p = l.any q := by
  intro l
  induction l with
  | nil => intro _; rfl
  | cons x xs ih =>
    intro h
    rw [List.any_cons, List.any_cons, h x (List.mem_cons_self x xs),
      ih (fun a ha => h a (List.mem_cons_of_mem x ha))]

theorem coords_rows_countP (l₁ : List CEntry) (e : String) :
    ((dropDupLast (fun x => rowGet (mkCoordRow x) "truck_id")
        (l₁.filter (fun x => x.truck_id.isSome))).map mkCoordRow).countP
      (fun rr => decide (rowGet rr "truck_id" = some (Val.str e))) =
      if (some e) ∈ l₁.map CEntry.truck_id then 1 else 0 := by
  rw [List.countP_map]
  show List.countP (fun x : CEntry => decide (rowGet (mkCoordRow x) "truck_id" = some (Val.str e)))
      (dropDupLast (fun x : CEntry => rowGet (mkCoordRow x) "truck_id")
        (List.filter (fun x => x.truck_id.isSome) l₁)) =
    if some e ∈ List.map CEntry.truck_id l₁ then 1 else 0
  rw [dropDupLast_countP, List.any_filter]
  have h2 := any_congr_list
    (fun (x : CEntry) _ => by
      cases hx : x.truck_id <;>
        simp [mkCoordRow, rowGet, optStrVal, hx] :
      ∀ x ∈ l₁,
        (fun x => x.truck_id.isSome &&
          decide (rowGet (mkCoordRow x) "truck_id" = some (Val.str e))) x =
        (fun x => decide (x.truck_id = some e)) x)
  rw [h2]
  refine if_congr ?_ rfl rfl
  rw [List.any_eq_true]
  constructor
  · rintro ⟨x, hx, hxe⟩
    rw [decide_eq_true_eq] at hxe
    exact List.mem_map.2 ⟨x, hx, hxe⟩
  · intro hmem
    rcases List.mem_map.1 hmem with ⟨x, hx, hxe⟩
    exact ⟨x, hx, by rw [decide_eq_true_eq]; exact hxe⟩

/-! ### C1: join totality -/

/-- C1 counterexample: the claim says the merge yields one output record per
entity appearing in either input, and at the concrete inputs
position = {T1: lat=10, lon=20}, metrics = {(T1,co2,400), (T2,co,5)} two
records (T1 and T2).  The merge is `how="left"`, so the output has exactly
one record, and none for the metrics-only entity T2. -/
theorem C1_join_totality_counterexample :
    (query_latest_coords
        (some (TablesResult.df (mkCoordsFrame [⟨some "T1", 10, 20, 0, 0⟩])))
        (some (TablesResult.df (mkMetricsFrame
          [⟨0, some "T1", "co2", 400⟩, ⟨1, some "T2", "co", 5⟩])))).map
      (fun g => (g.rows.length,
        g.rows.countP (fun rr => decide (rowGet rr "truck_id" = some (Val.str "T2"))))) =
      Except.ok (1, 0) := by
  rfl

/-- C1 amended: for every position frame with at least one non-null entity
key and every non-empty metrics frame, the merge in `query_latest_coords` is
a left join on the entity key: the output contains exactly one record per
entity appearing in the (deduplicated) position input, and an entity
appearing only in the metrics input is omitted. -/
theorem C1_join_totality_amended (l₁ : List CEntry) (l₂ : List MEntry)
    (h₁ : l₁.filter (fun x => x.truck_id.isSome) ≠ []) (h₂ : l₂ ≠ []) (e : String) :
    (query_latest_coords (some (TablesResult.df (mkCoordsFrame l₁)))
        (some (TablesResult.df (mkMetricsFrame l₂)))).map
      (fun g => g.rows.countP (fun rr => decide (rowGet rr "truck_id" = some (Val.str e)))) =
      Except.ok (if (some e) ∈ l₁.map CEntry.truck_id then 1 else 0) := by
  rw [qlc_constructed]
  dsimp only
  rw [cleanCoords_mk, prep_metrics_mk]
  have hrows : dropDupLast (fun x => rowGet (mkCoordRow x) "truck_id")
      (l₁.filter (fun x => x.truck_id.isSome)) ≠ [] := dropDupLast_ne_nil _ h₁
  have hmapne : (dropDupLast (fun x => rowGet (mkCoordRow x) "truck_id")
      (l₁.filter (fun x => x.truck_id.isSome))).map mkCoordRow ≠ [] := by
    intro hc
    apply hrows
    simpa using hc
  have hcc : (⟨["truck_id", "lat", "lon", "time_lat", "time_lon"],
      (dropDupLast (fun x => rowGet (mkCoordRow x) "truck_id")
        (l₁.filter (fun x => x.truck_id.isSome))).map mkCoordRow⟩ : Frame).isEmpty = false := by
    simp [Frame.isEmpty, List.isEmpty_eq_false.2 hmapne]
  rw [if_neg (by simp [hcc])]
  by_cases hmd : (pivotBody ⟨["time", "truck_id", "metric", "metric_value"],
      (dropDupLast (fun x => ["truck_id", "metric"].map (rowGet (mkMetricRowRenamed x)))
        (l₂.filter (fun x => x.truck_id.isSome))).map mkMetricRowRenamed⟩).isEmpty = true
  · rw [if_pos hmd]
    simp only [Except.map]
    congr 1
    exact coords_rows_countP l₁ e
  · rw [if_neg hmd]
    obtain ⟨g, hg, hcount⟩ := mergeLeftOn_ok_countP "truck_id"
      ⟨["truck_id", "lat", "lon", "time_lat", "time_lon"],
        (dropDupLast (fun x => rowGet (mkCoordRow x) "truck_id")
          (l₁.filter (fun x => x.truck_id.isSome))).map mkCoordRow⟩
      (pivotBody ⟨["time", "truck_id", "metric", "metric_value"],
        (dropDupLast (fun x => ["truck_id", "metric"].map (rowGet (mkMetricRowRenamed x)))
          (l₂.filter (fun x => x.truck_id.isSome))).map mkMetricRowRenamed⟩)
      (by simp)
      (by rw [pivotBody_cols]; exact List.mem_cons_self _ _)
      (by
        intro lr hlr
        rcases List.mem_map.1 hlr with ⟨x, _, rfl⟩
        rfl)
      (fun w => pivot_truck_countP_le_one _ w)
      (Val.str e)
    rw [hg]
    simp only [Except.map]
    congr 1
    rw [hcount]
    exact coords_rows_countP l₁ e

/-- Witness for C1 amended, at the concrete counterexample inputs: the
position-only entity T1 gets exactly one record. -/
theorem C1_join_totality_amended_witness :
    (query_latest_coords
        (some (TablesResult.df (mkCoordsFrame [⟨some "T1", 10, 20, 0, 0⟩])))
        (some (TablesResult.df (mkMetricsFrame
          [⟨0, some "T1", "co2", 400⟩, ⟨1, some "T2", "co", 5⟩])))).map
      (fun g => g.rows.countP (fun rr => decide (rowGet rr "truck_id" = some (Val.str "T1")))) =
      Except.ok (if (some "T1") ∈
        ([⟨some "T1", 10, 20, 0, 0⟩] : List CEntry).map CEntry.truck_id then 1 else 0) :=
  C1_join_totality_amended [⟨some "T1", 10, 20, 0, 0⟩]
    [⟨0, some "T1", "co2", 400⟩, ⟨1, some "T2", "co", 5⟩] (by decide) (by decide) "T1"

/-! ### Lookup lemmas for the merged record's metric cells -/

theorem rowGet_filter_ne (r : Row) (key m : String) (hm : m ≠ key) :
    rowGet (r.filter (fun kv => kv.1 ≠ key)) m = rowGet r m := by
  induction r with
  | nil => rfl
  | cons kv t ih =>
    rcases kv with ⟨k, v⟩
    rw [List.filter_cons]
    by_cases hk : k = key
    · have hd : (decide ((k, v).1 ≠ key)) = false := by simp [hk]
      rw [hd, if_neg Bool.false_ne_true, rowGet_cons,
        if_neg (fun hc : k = m => hm (hc ▸ hk))]
      exact ih
    · have hd : (decide ((k, v).1 ≠ key)) = true := by simp [hk]
      rw [hd, if_pos rfl, rowGet_cons, rowGet_cons]
      by_cases hkm : k = m
      · rw [if_pos hkm, if_pos hkm]
      · rw [if_neg hkm, if_neg hkm]
        exact ih

theorem nullfill_lookup (L : List String) (m : String) :
    rowGet (L.map (fun c => (c, Val.null))) m = some Val.null ∨
      rowGet (L.map (fun c => (c, Val.null))) m = none := by
  have h := rowGet_map_pair L (fun c => c) (fun _ => Val.null) m
  rw [h]
  cases List.find? (fun a => decide ((fun c => c) a = m)) L with
  | none => exact Or.inr rfl
  | some c => exact Or.inl rfl

theorem prep_rows_mem (l₂ : List MEntry) (row : Row)
    (hrow : row ∈ (dropDupLast
        (fun x => ["truck_id", "metric"].map (rowGet (mkMetricRowRenamed x)))
        (l₂.filter (fun x => x.truck_id.isSome))).map mkMetricRowRenamed) :
    ∃ x, x ∈ l₂ ∧ x.truck_id.isSome = true ∧ row = mkMetricRowRenamed x := by
  rcases List.mem_map.1 hrow with ⟨x, hx, rfl⟩
  have hx2 := dropDupLast_mem _ hx
  have hx3 := List.mem_filter.1 hx2
  exact ⟨x, hx3.1, by simpa using hx3.2, rfl⟩

/-! ### C2: absence propagation in the joined output -/

/-- C2 counterexample: the claim says an entity present only in the metrics
input has lat and lon absent in its joined record; with the left merge such
an entity has no joined record at all — at the claim's concrete inputs the
metrics-only entity T2 does not occur in the output. -/
theorem C2_absence_propagation_counterexample :
    (query_latest_coords
        (some (TablesResult.df (mkCoordsFrame [⟨some "T1", 10, 20, 0, 0⟩])))
        (some (TablesResult.df (mkMetricsFrame
          [⟨0, some "T1", "co2", 400⟩, ⟨1, some "T2", "co", 5⟩])))).map
      (fun g => g.rows.any (fun rr => decide (rowGet rr "truck_id" = some (Val.str "T2")))) =
      Except.ok false := by
  rfl

/-- C2 amended: in the joined output, absence is propagated, never
zero-filled: on every output record, a pollutant field whose metric has no
reading for that entity in the metrics input is null (`NaN`) or missing
entirely — in particular an entity present only in the position input has
all pollutant fields absent; an entity present only in the metrics input
produces no record at all (see the counterexample). -/
theorem C2_absence_propagation_amended (l₁ : List CEntry) (l₂ : List MEntry)
    (h₁ : l₁.filter (fun x => x.truck_id.isSome) ≠ []) (h₂ : l₂ ≠ [])
    (g : Frame)
    (hg : query_latest_coords (some (TablesResult.df (mkCoordsFrame l₁)))
        (some (TablesResult.df (mkMetricsFrame l₂))) = Except.ok g)
    (rr : Row) (hrr : rr ∈ g.rows) (e : String)
    (he : rowGet rr "truck_id" = some (Val.str e))
    (m : String) (hmem : m ∈ (["co2", "hc", "co"] : List String))
    (hnone : ∀ x ∈ l₂, x.truck_id = some e → x.field ≠ m) :
    rowGet rr m = some Val.null ∨ rowGet rr m = none := by
  have hcoordnone : ∀ x : CEntry, rowGet (mkCoordRow x) m = none := by
    fin_cases hmem <;> exact fun x => rfl
  rw [qlc_constructed] at hg
  dsimp only at hg
  rw [cleanCoords_mk, prep_metrics_mk] at hg
  have hrows : dropDupLast (fun x => rowGet (mkCoordRow x) "truck_id")
      (l₁.filter (fun x => x.truck_id.isSome)) ≠ [] := dropDupLast_ne_nil _ h₁
  have hmapne : (dropDupLast (fun x => rowGet (mkCoordRow x) "truck_id")
      (l₁.filter (fun x => x.truck_id.isSome))).map mkCoordRow ≠ [] := by
    intro hc
    apply hrows
    simpa using hc
  have hcc : (⟨["truck_id", "lat", "lon", "time_lat", "time_lon"],
      (dropDupLast (fun x => rowGet (mkCoordRow x) "truck_id")
        (l₁.filter (fun x => x.truck_id.isSome))).map mkCoordRow⟩ : Frame).isEmpty = false := by
    simp [Frame.isEmpty, List.isEmpty_eq_false.2 hmapne]
  rw [if_neg (by simp [hcc])] at hg
  by_cases hmd : (pivotBody ⟨["time", "truck_id", "metric", "metric_value"],
      (dropDupLast (fun x => ["truck_id", "metric"].map (rowGet (mkMetricRowRenamed x)))
        (l₂.filter (fun x => x.truck_id.isSome))).map mkMetricRowRenamed⟩).isEmpty = true
  · rw [if_pos hmd] at hg
    injection hg with hg'
    subst hg'
    rcases List.mem_map.1 hrr with ⟨x, _, rfl⟩
    exact Or.inr (hcoordnone x)
  · rw [if_neg hmd] at hg
    unfold mergeLeftOn at hg
    rw [if_pos ⟨by simp, by rw [pivotBody_cols]; exact List.mem_cons_self _ _⟩] at hg
    dsimp only at hg
    injection hg with hg'
    subst hg'
    rcases List.mem_flatten.1 hrr with ⟨blk, hblk, hrrb⟩
    rcases List.mem_map.1 hblk with ⟨lr, hlr, rfl⟩
    rcases List.mem_map.1 hlr with ⟨x, _, rfl⟩
    split at hrrb
    · rw [List.mem_singleton] at hrrb
      subst hrrb
      rw [rowGet_append_of_none _ (hcoordnone x)]
      exact nullfill_lookup _ m
    · rcases List.mem_map.1 hrrb with ⟨p, hp, rfl⟩
      have hpf := List.mem_filter.1 hp
      have hpm : p ∈ (pivotBody ⟨["time", "truck_id", "metric", "metric_value"],
          (dropDupLast (fun x => ["truck_id", "metric"].map (rowGet (mkMetricRowRenamed x)))
            (l₂.filter (fun x => x.truck_id.isSome))).map mkMetricRowRenamed⟩).rows := hpf.1
      have hpeq : rowGet p "truck_id" = rowGet (mkCoordRow x) "truck_id" := by
        have h' := hpf.2
        rw [decide_eq_true_eq] at h'
        exact h'
      have hxe : rowGet (mkCoordRow x) "truck_id" = some (Val.str e) := by
        rw [rowGet_append_of_isSome _ (by rfl)] at he
        exact he
      rw [pivotBody_rows] at hpm
      rcases List.mem_map.1 hpm with ⟨t, ht, rfl⟩
      have hte : t = Val.str e := Option.some.inj (hpeq.trans hxe)
      subst hte
      rw [rowGet_append_of_none _ (hcoordnone x)]
      rw [List.filter_cons]
      have hd0 : (decide (("truck_id", Val.str e).1 ≠ "truck_id")) = false := by simp
      rw [hd0, if_neg Bool.false_ne_true]
      rw [List.filter_map, rowGet_map_pair]
      cases hfind : List.find? (fun a => decide (valLabel a = m))
          (List.filter ((fun kv => kv.1 ≠ "truck_id") ∘ fun mv =>
            (valLabel mv, _)) _) with
      | none =>
        exact Or.inr rfl
      | some mv =>
        left
        have hlab : valLabel mv = m := by
          have h' := List.find?_some hfind
          rwa [decide_eq_true_eq] at h'
        have hmv_mem := List.mem_of_find?_eq_some hfind
        have hmv_lab := (List.mem_filter.1 hmv_mem).1
        have hstr : ∃ s, mv = Val.str s := by
          rw [List.mem_insertionSort, dedupFirst_mem, List.mem_filter] at hmv_lab
          rcases List.mem_map.1 hmv_lab.1 with ⟨row, hrow, hrow2⟩
          rcases prep_rows_mem l₂ row hrow with ⟨y, _, _, rfl⟩
          exact ⟨y.field, hrow2.symm⟩
        rcases hstr with ⟨s, rfl⟩
        have hsm : s = m := hlab
        subst hsm
        have hfil : ((dropDupLast
              (fun x => ["truck_id", "metric"].map (rowGet (mkMetricRowRenamed x)))
              (l₂.filter (fun x => x.truck_id.isSome))).map mkMetricRowRenamed).filter
            (fun r => (rowGet r "truck_id").getD Val.null = Val.str e ∧
              (rowGet r "metric").getD Val.null = Val.str s) = [] := by
          rw [List.filter_eq_nil_iff]
          intro row hrow
          rcases prep_rows_mem l₂ row hrow with ⟨y, hy, hys, rfl⟩
          rw [decide_eq_true_eq]
          rintro ⟨ha, hb⟩
          have ha' : optStrVal y.truck_id = Val.str e := ha
          have hb' : Val.str y.field = Val.str s := hb
          have hyt : y.truck_id = some e := by
            cases hyt0 : y.truck_id with
            | none => rw [hyt0] at ha'; exact absurd ha' (by simp [optStrVal])
            | some s₀ =>
              rw [hyt0] at ha'
              have : s₀ = e := by simpa [optStrVal] using ha'
              rw [this]
          have hyf : y.field = s := by
            have := hb'
            simpa using this
          exact hnone y hy hyt (by rw [hyf])
        simp only [Option.map_some']
        congr 1
        rw [hfil]
        rfl

/-- Witness for C2 amended: in the concrete joined output, the T1 record's
`co` field (no co reading for T1) is null, not zero. -/
theorem C2_absence_propagation_amended_witness :
    rowGet [("truck_id", Val.str "T1"), ("lat", Val.num 10), ("lon", Val.num 20),
        ("time_lat", Val.num 0), ("time_lon", Val.num 0), ("co", Val.null),
        ("co2", Val.num 400)] "co" = some Val.null ∨
      rowGet [("truck_id", Val.str "T1"), ("lat", Val.num 10), ("lon", Val.num 20),
        ("time_lat", Val.num 0), ("time_lon", Val.num 0), ("co", Val.null),
        ("co2", Val.num 400)] "co" = none :=
  C2_absence_propagation_amended [⟨some "T1", 10, 20, 0, 0⟩]
    [⟨0, some "T1", "co2", 400⟩, ⟨1, some "T2", "co", 5⟩] (by decide) (by decide)
    ⟨["truck_id", "lat", "lon", "time_lat", "time_lon", "co", "co2"],
      [[("truck_id", Val.str "T1"), ("lat", Val.num 10), ("lon", Val.num 20),
        ("time_lat", Val.num 0), ("time_lon", Val.num 0), ("co", Val.null),
        ("co2", Val.num 400)]]⟩
    (by rfl)
    [("truck_id", Val.str "T1"), ("lat", Val.num 10), ("lon", Val.num 20),
      ("time_lat", Val.num 0), ("time_lon", Val.num 0), ("co", Val.null),
      ("co2", Val.num 400)]
    (by decide) "T1" (by rfl) "co" (by decide) (by decide)

/-! ### C5: non-null entity keys in the normalized frames -/

/-- C5 counterexample: the claim says every normalized frame has zero rows
or only non-null entity keys.  `query_timeseries` drops rows with a null
`_measurement`, not rows with a null entity key: a response row with
`truck_id = null` and a real `_measurement` survives normalization. -/
theorem C5_null_entity_counterexample :
    ((query_timeseries_post (TablesResult.df
        ⟨["_time", "_value", "truck_id", "_field", "_measurement"],
          [[("_time", Val.num 1), ("_value", Val.num 2), ("truck_id", Val.null),
            ("_field", Val.str "co2"),
            ("_measurement", Val.str "truck_metrics")]]⟩)).rows.length = 1) ∧
      ((query_timeseries_post (TablesResult.df
        ⟨["_time", "_value", "truck_id", "_field", "_measurement"],
          [[("_time", Val.num 1), ("_value", Val.num 2), ("truck_id", Val.null),
            ("_field", Val.str "co2"),
            ("_measurement", Val.str "truck_metrics")]]⟩)).rows.countP
        (fun r => decide (rowGet r "truck_id" = some Val.null)) = 1) := by
  constructor
  · rfl
  · rfl

/-- C5 amended: the null-entity invariant does hold for the position/metrics
path — both frames are restricted to non-null entity keys inside
`query_latest_coords`, so every row of a successful result carries a
non-null, present entity key; the time-series normalizer, by contrast, only
drops null-`_measurement` rows (see the counterexample). -/
theorem C5_normalizer_nonnull_amended (l₁ : List CEntry) (l₂ : List MEntry)
    (g : Frame)
    (hg : query_latest_coords (some (TablesResult.df (mkCoordsFrame l₁)))
        (some (TablesResult.df (mkMetricsFrame l₂))) = Except.ok g)
    (rr : Row) (hrr : rr ∈ g.rows) :
    rowGet rr "truck_id" ≠ some Val.null ∧ rowGet rr "truck_id" ≠ none := by
  rw [qlc_constructed] at hg
  dsimp only at hg
  rw [cleanCoords_mk, prep_metrics_mk] at hg
  have hcoords : ∀ row ∈ (dropDupLast (fun x => rowGet (mkCoordRow x) "truck_id")
      (l₁.filter (fun x => x.truck_id.isSome))).map mkCoordRow,
      rowGet row "truck_id" ≠ some Val.null ∧ rowGet row "truck_id" ≠ none := by
    intro row hrow
    rcases List.mem_map.1 hrow with ⟨x, hx, rfl⟩
    have hx2 := List.mem_filter.1 (dropDupLast_mem _ hx)
    have hxs : x.truck_id.isSome = true := by simpa using hx2.2
    cases hxt : x.truck_id with
    | none => rw [hxt] at hxs; cases hxs
    | some s =>
      constructor
      · rw [show rowGet (mkCoordRow x) "truck_id" = some (optStrVal x.truck_id) from rfl, hxt]
        simp [optStrVal]
      · rw [show rowGet (mkCoordRow x) "truck_id" = some (optStrVal x.truck_id) from rfl]
        simp
  have hpivot : ∀ (f : Frame), ∀ row ∈ (pivotBody f).rows,
      rowGet row "truck_id" ≠ some Val.null ∧ rowGet row "truck_id" ≠ none := by
    intro f row hrow
    rcases pivot_truck_nonnull f row hrow with ⟨t, ht, htn⟩
    rw [ht]
    refine ⟨fun hc => htn (Option.some.inj hc), fun hc => by cases hc⟩
  split at hg
  · split at hg
    · injection hg with hg'
      subst hg'
      exact hpivot _ rr hrr
    · injection hg with hg'
      subst hg'
      exact absurd hrr (List.not_mem_nil rr)
  · split at hg
    · injection hg with hg'
      subst hg'
      exact hcoords rr hrr
    · unfold mergeLeftOn at hg
      rw [if_pos ⟨by simp, by rw [pivotBody_cols]; exact List.mem_cons_self _ _⟩] at hg
      dsimp only at hg
      injection hg with hg'
      subst hg'
      rcases List.mem_flatten.1 hrr with ⟨blk, hblk, hrrb⟩
      rcases List.mem_map.1 hblk with ⟨lr, hlr, rfl⟩
      have hlr2 := hcoords lr hlr
      have hlrsome : (rowGet lr "truck_id").isSome = true := by
        cases hget : rowGet lr "truck_id" with
        | none => exact absurd hget hlr2.2
        | some v => rfl
      split at hrrb
      · rw [List.mem_singleton] at hrrb
        subst hrrb
        rw [rowGet_append_of_isSome _ hlrsome]
        exact hlr2
      · rcases List.mem_map.1 hrrb with ⟨p, hp, rfl⟩
        rw [rowGet_append_of_isSome _ hlrsome]
        exact hlr2

/-- Witness for C5 amended, at the concrete joined output row. -/
theorem C5_normalizer_nonnull_amended_witness :
    rowGet [("truck_id", Val.str "T1"), ("lat", Val.num 10), ("lon", Val.num 20),
        ("time_lat", Val.num 0), ("time_lon", Val.num 0), ("co", Val.null),
        ("co2", Val.num 400)] "truck_id" ≠ some Val.null ∧
      rowGet [("truck_id", Val.str "T1"), ("lat", Val.num 10), ("lon", Val.num 20),
        ("time_lat", Val.num 0), ("time_lon", Val.num 0), ("co", Val.null),
        ("co2", Val.num 400)] "truck_id" ≠ none :=
  C5_normalizer_nonnull_amended [⟨some "T1", 10, 20, 0, 0⟩]
    [⟨0, some "T1", "co2", 400⟩, ⟨1, some "T2", "co", 5⟩]
    ⟨["truck_id", "lat", "lon", "time_lat", "time_lon", "co", "co2"],
      [[("truck_id", Val.str "T1"), ("lat", Val.num 10), ("lon", Val.num 20),
        ("time_lat", Val.num 0), ("time_lon", Val.num 0), ("co", Val.null),
        ("co2", Val.num 400)]]⟩
    (by rfl)
    [("truck_id", Val.str "T1"), ("lat", Val.num 10), ("lon", Val.num 20),
      ("time_lat", Val.num 0), ("time_lon", Val.num 0), ("co", Val.null),
      ("co2", Val.num 400)]
    (by decide)

/-! ### C8: shape mismatch handling -/

theorem renameOne_ne {m : List (String × String)} {v c : String}
    (hs : ∀ pq ∈ m, pq.2 ≠ v) (hc : c ≠ v) : renameOne m c ≠ v := by
  induction m with
  | nil => exact hc
  | cons pq t ih =>
    rcases pq with ⟨a, b⟩
    unfold renameOne
    by_cases hac : a = c
    · rw [if_pos hac]
      exact hs (a, b) (List.mem_cons_self _ _)
    · rw [if_neg hac]
      exact ih (fun q hq => hs q (List.mem_cons_of_mem _ hq))

theorem metricsRenameMap_snd (cols : List String) :
    ∀ pq ∈ metricsRenameMap cols, pq.2 ≠ "truck_id" := by
  intro pq hpq
  unfold metricsRenameMap at hpq
  rcases List.mem_append.1 hpq with h1 | h1
  · rcases List.mem_append.1 h1 with h2 | h2
    · split at h2
      · rw [List.mem_singleton] at h2
        subst h2
        decide
      · exact absurd h2 (List.not_mem_nil _)
    · split at h2
      · rw [List.mem_singleton] at h2
        subst h2
        decide
      · exact absurd h2 (List.not_mem_nil _)
  · split at h1
    · rw [List.mem_singleton] at h1
      subst h1
      decide
    · exact absurd h1 (List.not_mem_nil _)

/-- C8 counterexample: the claim says every core operation treats a response
missing the entity key column as empty without raising.  A non-empty metrics
frame without `truck_id` makes `query_latest_coords` raise a `KeyError`
(line 133, `metrics_df[metrics_df["truck_id"].notna()]`), modelled as
`Except.error`. -/
theorem C8_shape_mismatch_counterexample :
    query_latest_coords (some (TablesResult.frames []))
        (some (TablesResult.df ⟨["_time", "_value"],
          [[("_time", Val.num 0), ("_value", Val.num 1)]]⟩)) =
      Except.error "KeyError: truck_id" := by
  rfl

/-- C8 amended: the entity listing does degrade to empty on a missing entity
key column, but the position/metrics join does not — a non-empty metrics
frame lacking the entity key column makes `query_latest_coords` raise a
`KeyError` instead of returning an empty frame. -/
theorem C8_shape_mismatch_amended (f : Frame) (h : "truck_id" ∉ f.cols) :
    list_trucks_post (TablesResult.df f) = [] ∧
      (f.rows ≠ [] → f.cols ≠ [] →
        query_latest_coords (some (TablesResult.frames [])) (some (TablesResult.df f)) =
          Except.error "KeyError: truck_id") := by
  constructor
  · show list_trucks_body f = []
    unfold list_trucks_body
    rw [if_pos (Or.inr h)]
  · intro hr hc
    have hfe : f.isEmpty = false := by
      unfold Frame.isEmpty
      rw [List.isEmpty_eq_false.2 hr, List.isEmpty_eq_false.2 hc]
      rfl
    have hm1 : "truck_id" ∉ (if metricsRenameMap f.cols = [] then f
        else renameFrame (metricsRenameMap f.cols) f).cols := by
      split
      · exact h
      · intro hmem
        rcases List.mem_map.1 hmem with ⟨c, hcm, hren⟩
        exact renameOne_ne (metricsRenameMap_snd f.cols) (fun hcv => h (hcv ▸ hcm)) hren
    unfold query_latest_coords
    rw [show normalizeRes (some (TablesResult.frames [])) = Frame.empty from rfl,
      show normalizeRes (some (TablesResult.df f)) = f from rfl]
    simp [hfe, hm1, show Frame.empty.isEmpty = true from rfl]

/-- Witness for C8 amended, at a concrete frame without the entity key
column: the listing is empty and the join raises. -/
theorem C8_shape_mismatch_amended_witness :
    list_trucks_post (TablesResult.df
        (⟨["_time", "_value"], [[("_time", Val.num 0), ("_value", Val.num 1)]]⟩ : Frame)) = [] ∧
      query_latest_coords (some (TablesResult.frames []))
          (some (TablesResult.df
            (⟨["_time", "_value"], [[("_time", Val.num 0), ("_value", Val.num 1)]]⟩ : Frame))) =
        Except.error "KeyError: truck_id" :=
  ⟨(C8_shape_mismatch_amended
      ⟨["_time", "_value"], [[("_time", Val.num 0), ("_value", Val.num 1)]]⟩ (by decide)).1,
    (C8_shape_mismatch_amended
      ⟨["_time", "_value"], [[("_time", Val.num 0), ("_value", Val.num 1)]]⟩ (by decide)).2
      (by decide) (by decide)⟩
